import Mathlib

/-!
Verification development for the SecurePass backend (multi-user encrypted
credential vault).

The definitions below are a shallow embedding of the TypeScript backend:

* `src/backend/src/utils/encryption.ts`      — key wrap / field encryption
* `src/backend/src/services/vaultService.ts` — vault CRUD, health analysis
* `src/backend/src/services/*.ts`            — sharing, tags, auth, audit
* `src/backend/src/routes/*.ts`              — the HTTP handlers

Machine-level primitives that live outside the repository (node:crypto
AES-256-GCM, sha256, bcrypt) are modelled from the specification; every such
definition carries a doc comment saying so.  All other definitions are direct
translations of the repository source.

Conventions: byte buffers are `List Nat` ("Bytes"); times are naturals
(milliseconds); database ids and tokens are naturals; `Except String`
models a thrown `Error` with its message; `Option` models `null`/`undefined`.
Randomness (fresh ivs, fresh keys, fresh tokens, fresh row ids) is passed in
as explicit parameters, the standard shallow embedding of `crypto.randomBytes`.
-/

namespace SecurePass

/-- Byte buffers (`Buffer` in node). A genuine byte buffer has all entries
`< 256`; theorems that need this carry it as a `ValidBytes` hypothesis. -/
abbrev Bytes := List Nat

/-- All entries of the buffer are real bytes (`< 256`). -/
def ValidBytes (bs : Bytes) : Prop := ∀ b ∈ bs, b < 256

instance (bs : Bytes) : Decidable (ValidBytes bs) := by
  unfold ValidBytes; infer_instance

/-- Injective encoding of a byte buffer into a natural number (base-257 with
an offset so that the empty buffer is distinguished).  Injective on valid
buffers; used by the idealized cipher model below. -/
def encodeBytes : Bytes → Nat
  | [] => 0
  | b :: bs => 257 * encodeBytes bs + b + 1

/-- Modelled from the spec: the AES-256-GCM keystream of `node:crypto`
(`cipher.update` xors plaintext with a keystream derived from key and nonce).
Any length-preserving keystream is a faithful interface model; confidentiality
is not among the verified claims. -/
def keystream (key iv : Bytes) (n : Nat) : Bytes :=
  (List.range n).map (fun i => (encodeBytes key + encodeBytes iv + i) % 256)

/-- Modelled from the spec: AES-256-GCM encryption body (ciphertext is the
xor of the plaintext with the keystream; length-preserving, as GCM is). -/
def gcmSeal (key iv pt : Bytes) : Bytes :=
  List.zipWith Nat.xor pt (keystream key iv pt.length)

/-- Modelled from the spec: the 16-byte GCM authentication tag
(`cipher.getAuthTag`).  The spec assumes authentication is perfect — a
tampered ciphertext, nonce or wrong key never verifies — so the model lets
the first three positions of the 16-position tag injectively authenticate
`(key, iv, ciphertext)`. -/
def gcmTag (key iv ct : Bytes) : Bytes :=
  encodeBytes key :: encodeBytes iv :: encodeBytes ct :: List.replicate 13 0

/-- Modelled from the spec: AES-256-GCM decryption
(`decipher.setAuthTag` + `decipher.final`), which throws on any
authentication failure; `none` models the throw. -/
def gcmOpen (key iv ct tag0 : Bytes) : Option Bytes :=
  if gcmTag key iv ct = tag0 then
    some (List.zipWith Nat.xor ct (keystream key iv ct.length))
  else
    none

/-- `encryption.ts` constant `IV_LENGTH = 12`. -/
def IV_LENGTH : Nat := 12

/-- `encryption.ts` constant `TAG_LENGTH = 16`. -/
def TAG_LENGTH : Nat := 16

/-- `encryption.ts` constant `KEY_LENGTH = 32`. -/
def KEY_LENGTH : Nat := 32

/-- `encryption.ts` `wrapKey`: authenticated encryption of a per-user key
under the master key; output layout `iv(12) ++ authTag(16) ++ ciphertext`.
The fresh random `iv` is a parameter; the base64 transport encoding of the
source (an injective re-encoding applied just before storage and undone
first thing in `unwrapKey`) is elided. -/
def wrapKey (userKey masterKey iv : Bytes) : Bytes :=
  let ciphertext := gcmSeal masterKey iv userKey
  let tag0 := gcmTag masterKey iv ciphertext
  iv ++ tag0 ++ ciphertext

/-- `encryption.ts` `unwrapKey`: splits the wrapped blob at offsets 12 and
12+16 exactly as `data.subarray(0, 12)`, `subarray(12, 28)`, `subarray(28)`,
then decrypts; `none` models the authentication throw. -/
def unwrapKey (data masterKey : Bytes) : Option Bytes :=
  let iv := data.take IV_LENGTH
  let tag0 := (data.drop IV_LENGTH).take TAG_LENGTH
  let ciphertext := data.drop (IV_LENGTH + TAG_LENGTH)
  gcmOpen masterKey iv ciphertext tag0

/-- The `(ciphertext, iv, tag)` triple returned by `encryptVaultValue` and
stored in the three `VaultEntry` columns. -/
structure EncryptedValue where
  ciphertext : Bytes
  iv : Bytes
  tag : Bytes
deriving DecidableEq

/-- `encryption.ts` `encryptVaultValue`: encrypts a plaintext under the
user key with a fresh 12-byte iv (passed as a parameter), returning the
separate ciphertext, iv and tag. -/
def encryptVaultValue (plaintext userKey iv : Bytes) : EncryptedValue :=
  let ciphertext := gcmSeal userKey iv plaintext
  { ciphertext := ciphertext, iv := iv, tag := gcmTag userKey iv ciphertext }

/-- `encryption.ts` `decryptVaultValue`: inverse of `encryptVaultValue`;
`none` models the authentication-failure throw. -/
def decryptVaultValue (ciphertext iv tag0 userKey : Bytes) : Option Bytes :=
  gcmOpen userKey iv ciphertext tag0

/-- Modelled from the spec: `encryption.ts` `hashToken` is a sha256 digest
used only as a collision-free fingerprint for lookups (raw tokens are never
stored); modelled as an injective function on tokens. -/
def hashToken (token : Nat) : Nat := token

/-- Modelled from the spec: `bcrypt.hash` — a cost-parameterised one-way
digest of the account password.  Only the "compare succeeds iff same
password" contract matters to the verified claims, so the model is an
injective function. -/
def bcryptHash (password : String) : String := password

/-- Modelled from the spec: `bcrypt.compare`. -/
def bcryptCompare (password hash : String) : Bool := bcryptHash password == hash

/-- UTF-8 encoding of a plaintext string (`cipher.update(plaintext, 'utf8')`),
modelled as the list of code points — an injective map, which is all the
claims use. -/
def strToBytes (s : String) : Bytes := s.data.map Char.toNat

/-- Inverse decoding used by `decryptVaultValue(...).toString('utf8')`. -/
def bytesToStr (bs : Bytes) : String := String.mk (bs.map Char.ofNat)

/-- Field encryption at the service layer: `encryptVaultValue(password, key)`
with the string plaintext UTF-8 encoded. -/
def encryptVaultString (plaintext : String) (userKey iv : Bytes) : EncryptedValue :=
  encryptVaultValue (strToBytes plaintext) userKey iv

/-- Field decryption at the service layer, returning the decoded string. -/
def decryptVaultString (ciphertext iv tag0 userKey : Bytes) : Option String :=
  (decryptVaultValue ciphertext iv tag0 userKey).map bytesToStr

/-- Flip bit `k` of byte `i` of a buffer (xor the entry with `2 ^ k`). -/
def flipBit (bs : Bytes) (i k : Nat) : Bytes :=
  bs.set i (Nat.xor (bs.getD i 0) (2 ^ k))

/-! ## Database rows (prisma schema, `migration.sql`) -/

/-- A `User` row (`User` table): identity with credential hash and the
wrapped per-user key. -/
structure UserRec where
  id : Nat
  email : Option String
  passwordHash : Option String
  name : Option String
  wrappedKey : Option Bytes
deriving DecidableEq

/-- A `VaultEntry` row: an encrypted credential record. -/
structure VaultEntryRec where
  id : Nat
  userId : Nat
  title : String
  username : String
  site : Option String
  notes : Option String
  passwordCiphertext : Bytes
  iv : Bytes
  tag : Bytes
  collectionId : Option Nat
  isFavorite : Bool
  isPinned : Bool
  strength : Option Nat
  lastUsedAt : Option Nat
  createdAt : Nat
  updatedAt : Nat
deriving DecidableEq

/-- A `Tag` row: label owned by a user. -/
structure TagRec where
  id : Nat
  userId : Nat
  name : String
  color : Option String
deriving DecidableEq

/-- A `VaultEntryTag` join row, unique on `(entryId, tagId)`. -/
structure VaultEntryTagRec where
  entryId : Nat
  tagId : Nat
deriving DecidableEq

/-- A `SharedLink` row: a bounded-use share capability.  The raw token is
never stored, only its fingerprint (`tokenHash`, unique). -/
structure SharedLinkRec where
  id : Nat
  entryId : Nat
  userId : Nat
  tokenHash : Nat
  maxViews : Nat
  viewCount : Nat
  expiresAt : Nat
  accessedAt : Option Nat
  accessorIp : Option String
  includePassword : Bool
  includeNotes : Bool
  createdAt : Nat
deriving DecidableEq

/-- An `AuditLog` row (append-only). -/
structure AuditRec where
  userId : Nat
  action : String
  entryId : Option Nat
  entryTitle : Option String
  ipAddress : Option String
deriving DecidableEq

/-- A `RefreshToken` row: stores only the fingerprint of the raw token. -/
structure RefreshRec where
  tokenHash : Nat
  userId : Nat
  revoked : Bool
  expiresAt : Nat
deriving DecidableEq

/-- The relational store: one list per table, in insertion order (the order
rows come back from the database when no further ordering is requested). -/
structure Store where
  users : List UserRec
  entries : List VaultEntryRec
  tags : List TagRec
  entryTags : List VaultEntryTagRec
  links : List SharedLinkRec
  audits : List AuditRec
  refreshTokens : List RefreshRec
deriving DecidableEq

/-! ## Vault service (`vaultService.ts`) -/

/-- `vaultService.ts` `VaultEntryInput` (create payload).  `Option` fields
model the optional / possibly-`undefined` JSON fields. -/
structure VaultEntryInput where
  title : String
  username : Option String
  password : String
  site : Option String
  notes : Option String
  tagNames : Option (List String)
  collectionId : Option Nat
  isFavorite : Option Bool
  isPinned : Option Bool
deriving DecidableEq

/-- `vaultService.ts` `Partial<VaultEntryInput>` (update patch).  The outer
`Option` is "field present in the patch"; for `site` / `notes` /
`collectionId` the inner `Option` is the JSON `null`. -/
structure VaultEntryPatch where
  title : Option String
  username : Option String
  password : Option String
  site : Option (Option String)
  notes : Option (Option String)
  collectionId : Option (Option Nat)
  isFavorite : Option Bool
  isPinned : Option Bool
deriving DecidableEq

/-- JavaScript `x || null` applied to a nullable string: the empty string is
falsy and collapses to `null`. -/
def jsOrNull : Option String → Option String
  | some s => if s = "" then none else some s
  | none => none

/-- `vaultService.ts` `VaultEntryResponse`: a decrypted entry as returned by
the single-entry endpoints. -/
structure VaultEntryResponse where
  id : Nat
  title : String
  username : String
  password : String
  site : Option String
  notes : Option String
  collectionId : Option Nat
  isFavorite : Bool
  isPinned : Bool
  strength : Option Nat
  tagList : List (Nat × String × Option String)
  createdAt : Nat
  updatedAt : Nat
deriving DecidableEq

/-- `vaultService.ts` `VaultEntryListItem`: the list-view projection — note
there is no password / ciphertext field. -/
structure VaultEntryListItem where
  id : Nat
  title : String
  username : String
  site : Option String
  collectionId : Option Nat
  isFavorite : Bool
  isPinned : Bool
  strength : Option Nat
  tagList : List (Nat × String × Option String)
  createdAt : Nat
  updatedAt : Nat
deriving DecidableEq

/-- `vaultService.ts` `VaultSearchOptions`. -/
structure VaultSearchOptions where
  query : Option String
  collectionId : Option (Option Nat)
  tagIds : Option (List Nat)
  isFavorite : Option Bool
  isPinned : Option Bool
  strengthMin : Option Nat
  strengthMax : Option Nat
deriving DecidableEq

/-- `vaultService.ts` `PasswordHealth`. -/
structure PasswordHealth where
  total : Nat
  strong : Nat
  medium : Nat
  weak : Nat
  reused : Nat
  old : Nat
  noPassword : Nat
deriving DecidableEq

/-- The `tags: { include: { tag: true } }` join for one entry: its join rows
resolved against the `Tag` table, projected to `(id, name, color)`. -/
def entryTagsOf (st : Store) (eid : Nat) : List (Nat × String × Option String) :=
  (st.entryTags.filter (fun et => et.entryId == eid)).filterMap
    (fun et => (st.tags.find? (fun t => t.id == et.tagId)).map
      (fun t => (t.id, t.name, t.color)))

/-- The owner-scoped row predicate `{ id: entryId, userId }` that every
vault query uses (authorization by predicate, never post-fetch). -/
def ownerPred (userId entryId : Nat) (x : VaultEntryRec) : Bool :=
  x.id == entryId && x.userId == userId

/-- A row with `lastUsedAt` set to the access time. -/
def touchedEntry (now : Nat) (x : VaultEntryRec) : VaultEntryRec :=
  { x with lastUsedAt := some now }

/-- The `lastUsedAt` touch of `getVaultEntry`
(`prisma.vaultEntry.update({ where: { id: entryId }, data: { lastUsedAt } })`),
as a map over the table. -/
def touchEntries (entryId now : Nat) (es : List VaultEntryRec) : List VaultEntryRec :=
  es.map (fun x => if x.id == entryId then touchedEntry now x else x)

/-- `vaultService.ts` `getUserKey`: load the user's `wrappedKey` and unwrap
it under the master key; `.error` models the throws (missing key row or a
`CryptoError` from `unwrapKey`). -/
def getUserKeyE (mk : Bytes) (st : Store) (userId : Nat) : Except String Bytes :=
  match st.users.find? (fun u => u.id == userId) with
  | none => Except.error ("User encryption key not found")
  | some u =>
    match u.wrappedKey with
    | none => Except.error ("User encryption key not found")
    | some wk =>
      match unwrapKey wk mk with
      | none => Except.error ("Unsupported state or unable to authenticate data")
      | some k => Except.ok k

/-- `vaultService.ts` `calculateStrength` (0..4): one point each for length
≥ 8, length ≥ 12, mixed case, a digit, a non-alphanumeric; capped at 4. -/
def calculateStrength (password : String) : Nat :=
  let score :=
    (if password.length ≥ 8 then 1 else 0) +
    (if password.length ≥ 12 then 1 else 0) +
    (if password.data.any Char.isLower && password.data.any Char.isUpper then 1 else 0) +
    (if password.data.any (fun c => c.isDigit) then 1 else 0) +
    (if password.data.any (fun c => !c.isAlphanum) then 1 else 0)
  min score 4

/-- `vaultService.ts` `formatEntryResponse`. -/
def formatEntryResponse (st : Store) (e : VaultEntryRec) (decryptedPassword : String) :
    VaultEntryResponse :=
  { id := e.id, title := e.title, username := e.username,
    password := decryptedPassword, site := e.site, notes := e.notes,
    collectionId := e.collectionId, isFavorite := e.isFavorite,
    isPinned := e.isPinned, strength := e.strength,
    tagList := entryTagsOf st e.id,
    createdAt := e.createdAt, updatedAt := e.updatedAt }

/-- `vaultService.ts` `createVaultEntry`.  The fresh iv, the fresh row id and
the row timestamp are parameters.  Note the source appends the tag names to
`notes` as free text and creates no `VaultEntryTag` rows. -/
def createVaultEntry (mk ivFresh : Bytes) (newId nowT : Nat) (st : Store)
    (userId : Nat) (input : VaultEntryInput) :
    Except String (VaultEntryResponse × Store) :=
  match getUserKeyE mk st userId with
  | Except.error m => Except.error m
  | Except.ok key =>
    let enc := encryptVaultString input.password key ivFresh
    let strength := calculateStrength input.password
    let notes0 := jsOrNull input.notes
    let notes :=
      match input.tagNames with
      | some ts =>
        if ts.length > 0 then
          let tagString := "Tags: " ++ String.intercalate (", ") ts
          match notes0 with
          | some n => some (n ++ "\n\n" ++ tagString)
          | none => some tagString
        else notes0
      | none => notes0
    let e : VaultEntryRec :=
      { id := newId, userId := userId, title := input.title,
        username := input.username.getD "", site := jsOrNull input.site,
        notes := notes, passwordCiphertext := enc.ciphertext, iv := enc.iv,
        tag := enc.tag, collectionId := input.collectionId,
        isFavorite := input.isFavorite.getD false,
        isPinned := input.isPinned.getD false, strength := some strength,
        lastUsedAt := none, createdAt := nowT, updatedAt := nowT }
    let st' := { st with entries := st.entries ++ [e] }
    Except.ok (formatEntryResponse st' e input.password, st')

/-- `vaultService.ts` `getVaultEntry`: owner-scoped `findFirst`, decrypt, then
touch `lastUsedAt` (the touch is keyed on `id` alone, after the owner-scoped
fetch).  `schema.prisma` is not in the repository; per the spec's data model
(§3) the update writes exactly the listed field. -/
def getVaultEntry (mk : Bytes) (now : Nat) (st : Store) (userId entryId : Nat) :
    Except String (Option VaultEntryResponse × Store) :=
  match st.entries.find? (ownerPred userId entryId) with
  | none => Except.ok (none, st)
  | some e =>
    match getUserKeyE mk st userId with
    | Except.error m => Except.error m
    | Except.ok key =>
      match decryptVaultString e.passwordCiphertext e.iv e.tag key with
      | none => Except.error ("Unsupported state or unable to authenticate data")
      | some password =>
        Except.ok (some (formatEntryResponse st e password),
          { st with entries := touchEntries entryId now st.entries })

/-- The field-by-field `updateData` of `vaultService.ts` `updateVaultEntry`
applied to a row (`prisma.vaultEntry.update({ where: { id }, data })`): a
field present in the patch replaces the column (with the source's `|| null`
falsy collapse on `site` and `notes`); a present password re-encrypts the
triple with a fresh iv and recomputes `strength`. -/
def applyPatch (input : VaultEntryPatch) (key ivFresh : Bytes) (e : VaultEntryRec) :
    VaultEntryRec :=
  let encOpt := input.password.map (fun pw => encryptVaultString pw key ivFresh)
  { id := e.id, userId := e.userId,
    title := input.title.getD e.title,
    username := input.username.getD e.username,
    site := match input.site with | some v => jsOrNull v | none => e.site,
    notes := match input.notes with | some v => jsOrNull v | none => e.notes,
    passwordCiphertext := match encOpt with | some enc => enc.ciphertext | none => e.passwordCiphertext,
    iv := match encOpt with | some enc => enc.iv | none => e.iv,
    tag := match encOpt with | some enc => enc.tag | none => e.tag,
    collectionId := match input.collectionId with | some v => v | none => e.collectionId,
    isFavorite := input.isFavorite.getD e.isFavorite,
    isPinned := input.isPinned.getD e.isPinned,
    strength := match input.password with | some pw => some (calculateStrength pw) | none => e.strength,
    lastUsedAt := e.lastUsedAt, createdAt := e.createdAt, updatedAt := e.updatedAt }

/-- `vaultService.ts` `updateVaultEntry`: owner-scoped existence check, then
an update keyed on `id`, re-encrypting and recomputing `strength` when the
patch carries a password; finally decrypts the stored secret for the
response. -/
def updateVaultEntry (mk ivFresh : Bytes) (st : Store) (userId entryId : Nat)
    (input : VaultEntryPatch) :
    Except String (Option VaultEntryResponse × Store) :=
  match st.entries.find? (ownerPred userId entryId) with
  | none => Except.ok (none, st)
  | some _ =>
    match getUserKeyE mk st userId with
    | Except.error m => Except.error m
    | Except.ok key =>
      let patched := st.entries.map
        (fun x => if x.id == entryId then applyPatch input key ivFresh x else x)
      let st' := { st with entries := patched }
      match st'.entries.find? (fun e => e.id == entryId) with
      | none => Except.error ("Record to update not found")
      | some e' =>
        match decryptVaultString e'.passwordCiphertext e'.iv e'.tag key with
        | none => Except.error ("Unsupported state or unable to authenticate data")
        | some password => Except.ok (some (formatEntryResponse st' e' password), st')

/-- `vaultService.ts` `toggleFavorite`: throws `'Entry not found'` when the
owner-scoped lookup misses; otherwise flips the flag (update keyed on `id`)
and returns the new value. -/
def toggleFavorite (st : Store) (userId entryId : Nat) :
    Except String (Bool × Store) :=
  match st.entries.find? (ownerPred userId entryId) with
  | none => Except.error ("Entry not found")
  | some e =>
    let flipped := st.entries.map
      (fun x => if x.id == entryId then { x with isFavorite := !e.isFavorite } else x)
    Except.ok (!e.isFavorite, { st with entries := flipped })

/-- `vaultService.ts` `togglePinned`. -/
def togglePinned (st : Store) (userId entryId : Nat) :
    Except String (Bool × Store) :=
  match st.entries.find? (ownerPred userId entryId) with
  | none => Except.error ("Entry not found")
  | some e =>
    let flipped := st.entries.map
      (fun x => if x.id == entryId then { x with isPinned := !e.isPinned } else x)
    Except.ok (!e.isPinned, { st with entries := flipped })

/-- `vaultService.ts` `deleteVaultEntry`: owner-scoped `deleteMany`, with the
schema's `ON DELETE CASCADE` removing the entry's join rows and share links;
returns whether a row was deleted. -/
def deleteVaultEntry (st : Store) (userId entryId : Nat) : Bool × Store :=
  let removed := st.entries.filter (ownerPred userId entryId)
  let st' := { st with
    entries := st.entries.filter (fun e => !(ownerPred userId entryId e)),
    entryTags := st.entryTags.filter (fun et => !(removed.any (fun e => e.id == et.entryId))),
    links := st.links.filter (fun l => !(removed.any (fun e => e.id == l.entryId))) }
  (removed.length > 0, st')

/-- `vaultService.ts` `bulkDeleteEntries`: owner-scoped `deleteMany` over an
id list; returns the count actually deleted. -/
def bulkDeleteEntries (st : Store) (userId : Nat) (entryIds : List Nat) :
    Nat × Store :=
  let removed := st.entries.filter (fun e => entryIds.contains e.id && e.userId == userId)
  let st' := { st with
    entries := st.entries.filter (fun e => !(entryIds.contains e.id && e.userId == userId)),
    entryTags := st.entryTags.filter (fun et => !(removed.any (fun e => e.id == et.entryId))),
    links := st.links.filter (fun l => !(removed.any (fun e => e.id == l.entryId))) }
  (removed.length, st')

/-- Case-insensitive substring test: prisma
`{ contains: q, mode: 'insensitive' }`. -/
def containsInsensitive (hay q : String) : Bool :=
  decide (List.IsInfix (q.toLower.data) (hay.toLower.data))

/-- The prisma `where` object assembled by `vaultService.ts`
`listVaultEntries`, as a row predicate. -/
def matchesSearch (st : Store) (userId : Nat) (opts : VaultSearchOptions)
    (e : VaultEntryRec) : Bool :=
  (e.userId == userId) &&
  (match opts.collectionId with
   | some c => e.collectionId == c
   | none => true) &&
  (match opts.isFavorite with
   | some b => e.isFavorite == b
   | none => true) &&
  (match opts.isPinned with
   | some b => e.isPinned == b
   | none => true) &&
  (match opts.strengthMin, opts.strengthMax with
   | none, none => true
   | lo, hi =>
     match e.strength with
     | none => false
     | some s =>
       (match lo with | some m => decide (m ≤ s) | none => true) &&
       (match hi with | some m => decide (s ≤ m) | none => true)) &&
  (match opts.query with
   | some q =>
     if q = "" then true
     else
       containsInsensitive e.title q || containsInsensitive e.username q ||
       containsInsensitive (e.site.getD "") q || containsInsensitive (e.notes.getD "") q
   | none => true) &&
  (match opts.tagIds with
   | some ids =>
     if ids.length > 0 then
       st.entryTags.any (fun et => et.entryId == e.id && ids.contains et.tagId)
     else true
   | none => true)

/-- The list-view projection (`select` clause of `listVaultEntries` plus the
final `entries.map`): no ciphertext, iv, tag or password. -/
def toListItem (st : Store) (e : VaultEntryRec) : VaultEntryListItem :=
  { id := e.id, title := e.title, username := e.username, site := e.site,
    collectionId := e.collectionId, isFavorite := e.isFavorite,
    isPinned := e.isPinned, strength := e.strength,
    tagList := entryTagsOf st e.id,
    createdAt := e.createdAt, updatedAt := e.updatedAt }

/-- The `orderBy: [{isPinned: 'desc'}, {isFavorite: 'desc'},
{updatedAt: 'desc'}]` comparator of `listVaultEntries`.  Note the source
sends no further ordering key: ties are left to the database. -/
def listBefore (a b : VaultEntryListItem) : Bool :=
  if a.isPinned != b.isPinned then a.isPinned
  else if a.isFavorite != b.isFavorite then a.isFavorite
  else decide (b.updatedAt ≤ a.updatedAt)

/-- `listBefore` as a relation, for `List.insertionSort`. -/
def ListBeforeR (a b : VaultEntryListItem) : Prop := listBefore a b = true

instance : DecidableRel ListBeforeR := fun a b => by
  unfold ListBeforeR; infer_instance

/-- `vaultService.ts` `listVaultEntries`: filter, project (no secret
columns), and order.  The database returns equal-key rows in an order of its
own choosing; the model uses a stable sort over table order, one of the
behaviours the source permits. -/
def listVaultEntries (st : Store) (userId : Nat) (opts : VaultSearchOptions) :
    List VaultEntryListItem :=
  List.insertionSort ListBeforeR
    ((st.entries.filter (matchesSearch st userId opts)).map (toListItem st))

/-! ### Password health (`getPasswordHealth`) -/

/-- One step of building the `passwordHashes` map:
`passwordHashes.set(hash, (passwordHashes.get(hash) || 0) + 1)`. -/
def bumpCount : List (String × Nat) → String → List (String × Nat)
  | [], p => [(p, 1)]
  | (q, c) :: rest, p =>
    if q = p then (q, c + 1) :: rest else (q, c) :: bumpCount rest p

/-- Modelled from the spec: `Buffer.from(password).toString('base64')` — an
injective transport encoding used only as a map key, modelled as the string
itself. -/
def base64Key (password : String) : String := password

/-- Accumulator of the analysis loop in `getPasswordHealth`. -/
structure HealthAcc where
  hashes : List (String × Nat)
  strong : Nat
  medium : Nat
  weak : Nat
  old : Nat
  noPassword : Nat
deriving DecidableEq

/-- One iteration of the `for (const entry of entries)` loop of
`getPasswordHealth`: decrypt (a throw is caught and counted), count empty
plaintexts, bump the reuse map, classify strength and age. -/
def healthStep (key : Bytes) (cutoff : Nat) (acc : HealthAcc) (e : VaultEntryRec) :
    HealthAcc :=
  match decryptVaultString e.passwordCiphertext e.iv e.tag key with
  | none => { acc with noPassword := acc.noPassword + 1 }
  | some pw =>
    if pw = "" then { acc with noPassword := acc.noPassword + 1 }
    else
      let acc := { acc with hashes := bumpCount acc.hashes (base64Key pw) }
      let s := e.strength.getD (calculateStrength pw)
      let acc :=
        if s ≥ 4 then { acc with strong := acc.strong + 1 }
        else if s ≥ 2 then { acc with medium := acc.medium + 1 }
        else { acc with weak := acc.weak + 1 }
      if e.createdAt < cutoff then { acc with old := acc.old + 1 } else acc

/-- The final `passwordHashes.forEach(count => { if (count > 1) reused += count })`. -/
def reusedOf (hashes : List (String × Nat)) : Nat :=
  (hashes.map (fun pc => if pc.2 > 1 then pc.2 else 0)).sum

/-- `vaultService.ts` `getPasswordHealth`.  `cutoff` is the precomputed
`ninetyDaysAgo` instant. -/
def getPasswordHealth (mk : Bytes) (cutoff : Nat) (st : Store) (userId : Nat) :
    Except String PasswordHealth :=
  match getUserKeyE mk st userId with
  | Except.error m => Except.error m
  | Except.ok key =>
    let owned := st.entries.filter (fun e => e.userId == userId)
    let acc := owned.foldl (healthStep key cutoff)
      { hashes := [], strong := 0, medium := 0, weak := 0, old := 0, noPassword := 0 }
    Except.ok
      { total := owned.length, strong := acc.strong, medium := acc.medium,
        weak := acc.weak, reused := reusedOf acc.hashes, old := acc.old,
        noPassword := acc.noPassword }

/-! ## Sharing service (`sharingService.ts`) -/

/-- `sharingService.ts` `SharedEntryView`: the selective-disclosure view. -/
structure SharedEntryView where
  title : String
  username : String
  site : Option String
  password : Option String
  notes : Option String
deriving DecidableEq

/-- The capability lookup predicate of `accessSharedEntry`
(`findFirst({ where: { tokenHash, expiresAt: { gt: new Date() } } })`). -/
def sharePred (token now : Nat) (x : SharedLinkRec) : Bool :=
  x.tokenHash == hashToken token && decide (now < x.expiresAt)

/-- A capability row after `n` consumptions: `viewCount` grows by `n`,
`accessedAt` and `accessorIp` record the (last) access. -/
def bumpedLink (now : Nat) (ip : Option String) (n : Nat) (x : SharedLinkRec) : SharedLinkRec :=
  { x with viewCount := x.viewCount + n, accessedAt := some now, accessorIp := ip }

/-- `n` consumptions applied to the capability row with the given id. -/
def bumpNLinks (linkId now : Nat) (ip : Option String) (n : Nat)
    (ls : List SharedLinkRec) : List SharedLinkRec :=
  ls.map (fun x => if x.id == linkId then bumpedLink now ip n x else x)

/-- `sharingService.ts` `accessSharedEntry`: load the capability by token
fingerprint and unexpired (`expiresAt: { gt: now }`), reject when
`viewCount >= maxViews`, decrypt through the owner-facing `getVaultEntry`,
bump `viewCount` (`viewCount: { increment: 1 }`) and record the access, then
disclose fields per the capability's flags.  Both a missing token and an
exhausted capability return `none`. -/
def accessSharedEntry (mk : Bytes) (now : Nat) (st : Store) (token : Nat)
    (accessorIp : Option String) :
    Except String (Option SharedEntryView × Store) :=
  match st.links.find? (sharePred token now) with
  | none => Except.ok (none, st)
  | some l =>
    if l.viewCount ≥ l.maxViews then Except.ok (none, st)
    else
      match getVaultEntry mk now st l.userId l.entryId with
      | Except.error m => Except.error m
      | Except.ok (none, st1) => Except.ok (none, st1)
      | Except.ok (some de, st1) =>
        let st2 := { st1 with links := bumpNLinks l.id now accessorIp 1 st1.links }
        let view : SharedEntryView :=
          { title := de.title, username := de.username, site := de.site,
            password := if l.includePassword then some de.password else none,
            notes := if l.includeNotes then jsOrNull de.notes else none }
        Except.ok (some view, st2)

/-! ## Auth service (`authService.ts`) -/

/-- `authService.ts` `UserResponse`. -/
structure UserResponse where
  id : Nat
  email : Option String
  name : Option String
  hasVaultKey : Bool
deriving DecidableEq

/-- `authService.ts` `formatUserResponse`. -/
def formatUserResponse (u : UserRec) : UserResponse :=
  { id := u.id, email := u.email, name := u.name, hasVaultKey := u.wrappedKey.isSome }

/-- `authService.ts` `createTokensForUser`: issues an access token (stateless,
not modelled further) and stores the fingerprint of a fresh refresh token. -/
def createTokensForUser (st : Store) (userId : Nat) (freshToken refreshExpiry : Nat) :
    Store :=
  { st with refreshTokens := st.refreshTokens ++
      [{ tokenHash := hashToken freshToken, userId := userId, revoked := false, expiresAt := refreshExpiry }] }

/-- `authService.ts` `registerUser`: reject a taken email, hash the password,
generate and wrap a fresh per-user key, create the user, issue tokens.  The
fresh key, wrap iv, row id and refresh token are parameters.  Note: no audit
row is written. -/
def registerUser (mk freshUserKey wrapIv : Bytes) (newId freshToken refreshExpiry : Nat)
    (st : Store) (email password : String) (name : Option String) :
    Except String (UserResponse × Store) :=
  if st.users.any (fun u => u.email == some email) then
    Except.error ("User with this email already exists")
  else
    let u : UserRec :=
      { id := newId, email := some email,
        passwordHash := some (bcryptHash password), name := name,
        wrappedKey := some (wrapKey freshUserKey mk wrapIv) }
    let st1 := { st with users := st.users ++ [u] }
    let st2 := createTokensForUser st1 newId freshToken refreshExpiry
    Except.ok (formatUserResponse u, st2)

/-- `authService.ts` `loginUser`: same `'Invalid email or password'` error for
an unknown email, an OAuth-only account and a failed compare; on success
issues tokens.  Note: no audit row is written. -/
def loginUser (freshToken refreshExpiry : Nat) (st : Store)
    (email password : String) :
    Except String (UserResponse × Store) :=
  match st.users.find? (fun u => u.email == some email) with
  | none => Except.error ("Invalid email or password")
  | some u =>
    match u.passwordHash with
    | none => Except.error ("Invalid email or password")
    | some h =>
      if bcryptCompare password h then
        Except.ok (formatUserResponse u, createTokensForUser st u.id freshToken refreshExpiry)
      else
        Except.error ("Invalid email or password")

/-! ## HTTP handlers (`routes/passwords.ts`, `routes/auth.ts`)

Each handler is modelled as a function returning the response — an HTTP
status code plus payload — and the store after the request.  `logAction`
(`auditService.ts`) appends one `AuditLog` row; per §4.8 the audit write
itself never fails. -/

/-- `auditService.ts` `logAction`. -/
def logAction (st : Store) (userId : Nat) (action : String) (entryId : Option Nat)
    (entryTitle : Option String) (ip : Option String) : Store :=
  { st with audits := st.audits ++
      [{ userId := userId, action := action, entryId := entryId, entryTitle := entryTitle, ipAddress := ip }] }

/-- `GET /api/passwords/:id` (`routes/passwords.ts`): 404 when the service
returns null, 500 when it throws, otherwise a `reveal` audit and the decrypted
entry. -/
def getPasswordRoute (mk : Bytes) (now : Nat) (st : Store) (userId entryId : Nat)
    (ip : Option String) : (Nat × Option VaultEntryResponse) × Store :=
  match getVaultEntry mk now st userId entryId with
  | Except.error _ => ((500, none), st)
  | Except.ok (none, st1) => ((404, none), st1)
  | Except.ok (some entry, st1) =>
    ((200, some entry), logAction st1 userId ("reveal") (some entry.id) (some entry.title) ip)

/-- `PUT /api/passwords/:id`: 404 on null, 500 on a throw, otherwise an
`update` audit and the updated entry. -/
def updatePasswordRoute (mk ivFresh : Bytes) (st : Store) (userId entryId : Nat)
    (input : VaultEntryPatch) (ip : Option String) :
    (Nat × Option VaultEntryResponse) × Store :=
  match updateVaultEntry mk ivFresh st userId entryId input with
  | Except.error _ => ((500, none), st)
  | Except.ok (none, st1) => ((404, none), st1)
  | Except.ok (some entry, st1) =>
    ((200, some entry), logAction st1 userId ("update") (some entry.id) (some entry.title) ip)

/-- `DELETE /api/passwords/:id`: fetches the entry first (for the audit
title), then the owner-scoped delete; 404 when nothing was deleted. -/
def deletePasswordRoute (mk : Bytes) (now : Nat) (st : Store) (userId entryId : Nat)
    (ip : Option String) : Nat × Store :=
  match getVaultEntry mk now st userId entryId with
  | Except.error _ => (500, st)
  | Except.ok (entryOpt, st1) =>
    let (deleted, st2) := deleteVaultEntry st1 userId entryId
    if !deleted then (404, st2)
    else (200, logAction st2 userId ("delete") (some entryId) (entryOpt.map (fun e => e.title)) ip)

/-- `POST /api/passwords/:id/favorite`: the service's `'Entry not found'`
throw is caught and surfaced as status 500. -/
def toggleFavoriteRoute (st : Store) (userId entryId : Nat) :
    (Nat × Option Bool) × Store :=
  match toggleFavorite st userId entryId with
  | Except.error _ => ((500, none), st)
  | Except.ok (b, st1) => ((200, some b), st1)

/-- `POST /api/passwords/:id/pin`: same shape as the favorite toggle. -/
def togglePinnedRoute (st : Store) (userId entryId : Nat) :
    (Nat × Option Bool) × Store :=
  match togglePinned st userId entryId with
  | Except.error _ => ((500, none), st)
  | Except.ok (b, st1) => ((200, some b), st1)

/-- `GET /api/share/:token` (`routes/passwords.ts`, public): 404 with
`'Share link not found or expired'` both for a missing/expired token and an
exhausted capability; 500 on a throw.  Note: no `share_access` audit row is
written anywhere on this path. -/
def shareAccessRoute (mk : Bytes) (now : Nat) (st : Store) (token : Nat)
    (accessorIp : Option String) : (Nat × Option SharedEntryView) × Store :=
  match accessSharedEntry mk now st token accessorIp with
  | Except.error _ => ((500, none), st)
  | Except.ok (none, st1) => ((404, none), st1)
  | Except.ok (some v, st1) => ((200, some v), st1)

/-- `POST /api/auth/register` (`routes/auth.ts`): 409 when the email is
taken, 201 on success.  Note: no `login` audit row is written. -/
def registerRoute (mk freshUserKey wrapIv : Bytes) (newId freshToken refreshExpiry : Nat)
    (st : Store) (email password : String) (name : Option String) :
    (Nat × Option UserResponse) × Store :=
  match registerUser mk freshUserKey wrapIv newId freshToken refreshExpiry st email password name with
  | Except.error _ => ((409, none), st)
  | Except.ok (u, st1) => ((201, some u), st1)

/-- `POST /api/auth/login`: 401 on any failure, 200 on success.  Note: no
`login` audit row is written. -/
def loginRoute (freshToken refreshExpiry : Nat) (st : Store)
    (email password : String) : (Nat × Option UserResponse) × Store :=
  match loginUser freshToken refreshExpiry st email password with
  | Except.error _ => ((401, none), st)
  | Except.ok (u, st1) => ((200, some u), st1)

/-- N sequential public accesses of a share token (the state threading of
`GET /api/share/:token` called N times). -/
def accessIter (mk : Bytes) (now : Nat) (ip : Option String) (token : Nat) :
    Nat → Store → Store
  | 0, st => st
  | Nat.succ n, st =>
    let st1 := match accessSharedEntry mk now st token ip with
      | Except.ok r => r.2
      | Except.error _ => st
    accessIter mk now ip token n st1

/-- The view count of the link with the given row id. -/
def linkViewCount (st : Store) (linkId : Nat) : Option Nat :=
  (st.links.find? (fun x => x.id == linkId)).map (fun x => x.viewCount)

/-- The store after `k` sequential accesses of the capability `l` (starting
from `viewCount = 0`): the owner's entry is touched once and the capability
accumulates `min k l.maxViews` consumptions. -/
def shareStateAfter (l : SharedLinkRec) (now : Nat) (ip : Option String)
    (k : Nat) (st : Store) : Store :=
  if k = 0 then st
  else { st with entries := touchEntries l.entryId now st.entries,
                 links := bumpNLinks l.id now ip (min k l.maxViews) st.links }

/-! ## Spec-side definitions (for refinement comparisons only) -/

/-- The strength score exactly as the spec words it (§4.5): `min(4, [len ≥ 8]
+ [len ≥ 12] + [has upper and lower] + [has digit] + [has non-alphanumeric])`. -/
def strengthScoreSpec (s : String) : Nat :=
  min 4
    ((if 8 ≤ s.length then 1 else 0) +
     (if 12 ≤ s.length then 1 else 0) +
     (if s.data.any Char.isUpper && s.data.any Char.isLower then 1 else 0) +
     (if s.data.any Char.isDigit then 1 else 0) +
     (if s.data.any (fun c => !c.isAlphanum) then 1 else 0))

/-- Erase the secret triple of a row (used to state that the list view is
independent of the stored secrets). -/
def scrubSecret (e : VaultEntryRec) : VaultEntryRec :=
  { e with passwordCiphertext := [], iv := [], tag := [] }

/-! ## Concrete sample data (witnesses and counterexamples) -/

/-- Sample 32-byte master key. -/
def demoMasterKey : Bytes := List.replicate 32 1

/-- Sample fresh 32-byte per-user key. -/
def demoUserKey : Bytes := List.replicate 32 3

/-- Sample fresh 12-byte wrap iv. -/
def demoWrapIv : Bytes := List.replicate 12 2

/-- Sample fresh 12-byte field-encryption iv. -/
def demoIv : Bytes := List.replicate 12 4

/-- Account 1 with a wrapped per-user key. -/
def demoUser : UserRec :=
  { id := 1, email := some ("a@x.test"), passwordHash := some (bcryptHash ("Passw0rd!")),
    name := none, wrappedKey := some (wrapKey demoUserKey demoMasterKey demoWrapIv) }

/-- The encrypted secret of the sample entry. -/
def demoEnc : EncryptedValue := encryptVaultString ("Hunter2A!") demoUserKey demoIv

/-- Vault entry 10 owned by account 1. -/
def demoEntry : VaultEntryRec :=
  { id := 10, userId := 1, title := "Gmail", username := "bob", site := none,
    notes := some ("hello"), passwordCiphertext := demoEnc.ciphertext,
    iv := demoEnc.iv, tag := demoEnc.tag, collectionId := none,
    isFavorite := false, isPinned := false, strength := some 3,
    lastUsedAt := none, createdAt := 100, updatedAt := 100 }

/-- Share capability for entry 10, `maxViews = 2`, issued by account 1,
fingerprint of raw token 777. -/
def demoLink : SharedLinkRec :=
  { id := 50, entryId := 10, userId := 1, tokenHash := hashToken 777,
    maxViews := 2, viewCount := 0, expiresAt := 1000, accessedAt := none,
    accessorIp := none, includePassword := true, includeNotes := false,
    createdAt := 100 }

/-- Sample store: one account, one entry, one share capability. -/
def demoStore : Store :=
  { users := [demoUser], entries := [demoEntry], tags := [], entryTags := [],
    links := [demoLink], audits := [], refreshTokens := [] }

/-- A tied row (for the ordering counterexample): not pinned, not favourite,
fixed `updatedAt`, empty secret blobs (the list view never decrypts). -/
def tiedEntry (eid : Nat) : VaultEntryRec :=
  { id := eid, userId := 1, title := "t", username := "u", site := none,
    notes := none, passwordCiphertext := [], iv := [], tag := [],
    collectionId := none, isFavorite := false, isPinned := false,
    strength := some 1, lastUsedAt := none, createdAt := 5, updatedAt := 5 }

/-- Store whose entry table holds three fully tied rows in the insertion
order 2, 1, 3. -/
def tiedStore : Store :=
  { users := [demoUser], entries := [tiedEntry 2, tiedEntry 1, tiedEntry 3],
    tags := [], entryTags := [], links := [], audits := [], refreshTokens := [] }

/-- The empty search filter. -/
def noFilter : VaultSearchOptions :=
  { query := none, collectionId := none, tagIds := none, isFavorite := none,
    isPinned := none, strengthMin := none, strengthMax := none }

/-- Create payload with one tag name (for the tags-in-notes analysis). -/
def demoTaggedInput : VaultEntryInput :=
  { title := "T", username := none, password := "pw", site := none,
    notes := some ("hello"), tagNames := some ["work"], collectionId := none,
    isFavorite := none, isPinned := none }

/-- Patch that replaces only the secret. -/
def demoPasswordPatch : VaultEntryPatch :=
  { title := none, username := none, password := some ("Correct-Horse-9!"),
    site := none, notes := none, collectionId := none, isFavorite := none,
    isPinned := none }

/-- Three encrypted copies of the same password `"reuse-me"` under the demo
user key (fresh ivs), as three entries of account 1. -/
def reuseEntry (eid ivByte : Nat) : VaultEntryRec :=
  let enc := encryptVaultString ("reuse-me") demoUserKey (List.replicate 12 ivByte)
  { id := eid, userId := 1, title := "r", username := "u", site := none,
    notes := none, passwordCiphertext := enc.ciphertext, iv := enc.iv,
    tag := enc.tag, collectionId := none, isFavorite := false,
    isPinned := false, strength := some 1, lastUsedAt := none,
    createdAt := 100, updatedAt := 100 }

/-- Store with three entries sharing one plaintext secret. -/
def reuseStore : Store :=
  { users := [demoUser], entries := [reuseEntry 21 5, reuseEntry 22 6, reuseEntry 23 7],
    tags := [], entryTags := [], links := [], audits := [], refreshTokens := [] }

/-- The plaintext an entry contributes to the reuse analysis: `some pw` when
its secret decrypts to a non-empty string, `none` when decryption throws
(caught) or yields the empty string. -/
def pwOf (key : Bytes) (e : VaultEntryRec) : Option String :=
  match decryptVaultString e.passwordCiphertext e.iv e.tag key with
  | some pw => if pw = "" then none else some pw
  | none => none

/-- The keys of the `passwordHashes` map. -/
def keysOf (m : List (String × Nat)) : List String := m.map Prod.fst

/-- The multiset a count map represents: each key repeated its count. -/
def repCounts (m : List (String × Nat)) : List String :=
  (m.map (fun pc => List.replicate pc.2 pc.1)).flatten

/-- The empty store. -/
def emptyStore : Store :=
  { users := [], entries := [], tags := [], entryTags := [], links := [],
    audits := [], refreshTokens := [] }

/-- The selective view produced by the demo share capability. -/
def demoView : SharedEntryView :=
  { title := "Gmail", username := "bob", site := none,
    password := some ("Hunter2A!"), notes := none }

/-- The demo store after one successful access of token 777 at time 7. -/
def demoAfterShare : Store :=
  let es := touchEntries demoLink.entryId 7 demoStore.entries
  let ls := bumpNLinks demoLink.id 7 none 1 demoStore.links
  { demoStore with entries := es, links := ls }

/-! ## General list lemmas -/

theorem listFindMapComm {α : Type} (f : α → α) (p : α → Bool) (l : List α)
    (hp : ∀ x, p (f x) = p x) : (l.map f).find? p = (l.find? p).map f := by
  induction l with
  | nil => simp
  | cons a t ih =>
    simp only [List.map_cons, List.find?_cons, hp a]
    cases p a <;> simp [ih]

theorem listFindUnique {α : Type} (p : α → Bool) (l : List α) (a : α)
    (ha : a ∈ l) (huniq : ∀ x ∈ l, p x = true → x = a) :
    l.find? p = if p a then some a else none := by
  induction l with
  | nil => cases ha
  | cons b t ih =>
    by_cases hb : p b = true
    · have hba : b = a := huniq b (List.mem_cons_self b t) hb
      subst hba
      simp [List.find?_cons, hb]
    · rw [Bool.not_eq_true] at hb
      rcases List.mem_cons.mp ha with h1 | h2
      · subst h1
        simp only [List.find?_cons, hb, if_false, Bool.false_eq_true]
        rw [List.find?_eq_none]
        intro x hx hpx
        have hxa := huniq x (List.mem_cons_of_mem a hx) hpx
        subst hxa
        rw [hb] at hpx
        cases hpx
      · simp only [List.find?_cons, hb]
        exact ih h2 (fun x hx hpx => huniq x (List.mem_cons_of_mem b hx) hpx)

/-! ## Cipher-model lemmas -/

theorem encodeBytes_inj {a b : Bytes} (ha : ValidBytes a) (hb : ValidBytes b)
    (h : encodeBytes a = encodeBytes b) : a = b := by
  induction a generalizing b with
  | nil =>
    cases b with
    | nil => rfl
    | cons y ys => simp only [encodeBytes] at h; omega
  | cons x xs ih =>
    cases b with
    | nil => simp only [encodeBytes] at h; omega
    | cons y ys =>
      simp only [encodeBytes] at h
      have hx : x < 256 := ha x (List.mem_cons_self x xs)
      have hy : y < 256 := hb y (List.mem_cons_self y ys)
      have hxy : x = y ∧ encodeBytes xs = encodeBytes ys := by omega
      have hxs : ValidBytes xs := fun z hz => ha z (List.mem_cons_of_mem x hz)
      have hys : ValidBytes ys := fun z hz => hb z (List.mem_cons_of_mem y hz)
      rw [hxy.1, ih hxs hys hxy.2]

theorem keystream_length (key iv : Bytes) (n : Nat) :
    (keystream key iv n).length = n := by
  simp [keystream]

theorem zipWith_xor_cancel : ∀ (pt ks : Bytes), ks.length = pt.length →
    List.zipWith Nat.xor (List.zipWith Nat.xor pt ks) ks = pt
  | [], _, _ => by simp
  | _ :: _, [], h => by simp at h
  | p :: pt, k :: ks, h => by
    simp only [List.zipWith_cons_cons, List.length_cons] at h ⊢
    have h1 : Nat.xor (Nat.xor p k) k = p := Nat.xor_cancel_right k p
    rw [h1, zipWith_xor_cancel pt ks (by omega)]

theorem gcmSeal_length (key iv pt : Bytes) : (gcmSeal key iv pt).length = pt.length := by
  simp [gcmSeal, keystream_length]

theorem gcm_roundtrip (key iv pt : Bytes) :
    gcmOpen key iv (gcmSeal key iv pt) (gcmTag key iv (gcmSeal key iv pt)) = some pt := by
  simp only [gcmOpen, if_pos rfl]
  rw [gcmSeal_length]
  exact congrArg some (zipWith_xor_cancel pt _ (by rw [keystream_length]))

theorem gcmTag_length (key iv ct : Bytes) : (gcmTag key iv ct).length = 16 := by
  simp [gcmTag]

theorem validBytes_keystream (key iv : Bytes) (n : Nat) :
    ValidBytes (keystream key iv n) := by
  intro b hb
  simp only [keystream, List.mem_map] at hb
  obtain ⟨i, _, rfl⟩ := hb
  exact Nat.mod_lt _ (by omega)

theorem validBytes_zipWith_xor : ∀ {l1 l2 : Bytes}, ValidBytes l1 → ValidBytes l2 →
    ValidBytes (List.zipWith Nat.xor l1 l2)
  | [], _, _, _ => by intro b hb; simp at hb
  | _ :: _, [], _, _ => by intro b hb; simp at hb
  | x :: l1, y :: l2, h1, h2 => by
    intro b hb
    simp only [List.zipWith_cons_cons, List.mem_cons] at hb
    rcases hb with rfl | hb
    · have hx : x < 256 := h1 x (List.mem_cons_self x l1)
      have hy : y < 256 := h2 y (List.mem_cons_self y l2)
      have : (256 : Nat) = 2 ^ 8 := by norm_num
      rw [this] at hx hy ⊢
      exact Nat.xor_lt_two_pow hx hy
    · exact validBytes_zipWith_xor (fun z hz => h1 z (List.mem_cons_of_mem x hz))
        (fun z hz => h2 z (List.mem_cons_of_mem y hz)) b hb

theorem validBytes_gcmSeal (key iv pt : Bytes) (hpt : ValidBytes pt) :
    ValidBytes (gcmSeal key iv pt) :=
  validBytes_zipWith_xor hpt (validBytes_keystream key iv pt.length)

theorem gcmTag_inj {key key2 iv iv2 ct ct2 : Bytes}
    (h : gcmTag key iv ct = gcmTag key2 iv2 ct2) :
    encodeBytes key = encodeBytes key2 ∧ encodeBytes iv = encodeBytes iv2 ∧
      encodeBytes ct = encodeBytes ct2 := by
  simp only [gcmTag, List.cons.injEq] at h
  exact ⟨h.1, h.2.1, h.2.2.1⟩

theorem gcmOpen_wrong_ct {key iv ct ct2 tag0 : Bytes}
    (hk : ValidBytes ct) (hk2 : ValidBytes ct2) (hne : ct2 ≠ ct)
    (htag : tag0 = gcmTag key iv ct) : gcmOpen key iv ct2 tag0 = none := by
  rw [gcmOpen, if_neg]
  intro h
  rw [htag] at h
  exact hne (encodeBytes_inj hk2 hk (gcmTag_inj h).2.2)

theorem gcmOpen_wrong_iv {key iv iv2 ct tag0 : Bytes}
    (hv : ValidBytes iv) (hv2 : ValidBytes iv2) (hne : iv2 ≠ iv)
    (htag : tag0 = gcmTag key iv ct) : gcmOpen key iv2 ct tag0 = none := by
  rw [gcmOpen, if_neg]
  intro h
  rw [htag] at h
  exact hne (encodeBytes_inj hv2 hv (gcmTag_inj h).2.1)

theorem gcmOpen_wrong_key {key key2 iv ct tag0 : Bytes}
    (hk : ValidBytes key) (hk2 : ValidBytes key2) (hne : key2 ≠ key)
    (htag : tag0 = gcmTag key iv ct) : gcmOpen key2 iv ct tag0 = none := by
  rw [gcmOpen, if_neg]
  intro h
  rw [htag] at h
  exact hne (encodeBytes_inj hk2 hk (gcmTag_inj h).1)

theorem gcmOpen_wrong_tag {key iv ct tag0 tag1 : Bytes}
    (hne : tag1 ≠ tag0) (htag : tag0 = gcmTag key iv ct) :
    gcmOpen key iv ct tag1 = none := by
  rw [gcmOpen, if_neg]
  intro h
  exact hne (htag.trans h).symm

theorem natXor_def (a b : Nat) : Nat.xor a b = a ^^^ b := rfl

theorem xor_pow_ne (x k : Nat) : Nat.xor x (2 ^ k) ≠ x := by
  intro hx
  simp only [natXor_def] at hx
  have h1 : x ^^^ (x ^^^ 2 ^ k) = 2 ^ k := by
    rw [← Nat.xor_assoc, Nat.xor_self, Nat.zero_xor]
  rw [hx, Nat.xor_self] at h1
  exact absurd h1.symm (Nat.two_pow_pos k).ne'

theorem flipBit_ne : ∀ (bs : Bytes) (i k : Nat), i < bs.length → flipBit bs i k ≠ bs
  | [], i, _, hi => by simp at hi
  | x :: t, 0, k, _ => by
    intro h
    simp only [flipBit, List.getD_cons_zero, List.set_cons_zero, List.cons.injEq] at h
    exact xor_pow_ne x k h.1
  | x :: t, i + 1, k, hi => by
    intro h
    simp only [flipBit, List.getD_cons_succ, List.set_cons_succ, List.cons.injEq] at h
    exact flipBit_ne t i k (by simpa using hi) (by simpa [flipBit] using h.2)

theorem validBytes_flipBit {bs : Bytes} (h : ValidBytes bs) (i k : Nat)
    (hk : k < 8) : ValidBytes (flipBit bs i k) := by
  intro b hb
  rcases List.mem_or_eq_of_mem_set hb with hmem | rfl
  · exact h b hmem
  · have h1 : bs.getD i 0 < 256 := by
      rcases Nat.lt_or_ge i bs.length with hi | hi
      · rw [List.getD_eq_getElem bs 0 hi]
        exact h _ (List.getElem_mem hi)
      · rw [List.getD_eq_default _ _ hi]
        omega
    have h2 : (2 : Nat) ^ k < 256 := by
      calc (2 : Nat) ^ k < 2 ^ 8 := Nat.pow_lt_pow_right (by omega) hk
      _ = 256 := by norm_num
    have h256 : (256 : Nat) = 2 ^ 8 := by norm_num
    rw [h256] at h1 h2 ⊢
    exact Nat.xor_lt_two_pow h1 h2

theorem wrapKey_as_append (k M wiv : Bytes) :
    wrapKey k M wiv = wiv ++ gcmTag M wiv (gcmSeal M wiv k) ++ gcmSeal M wiv k := by
  simp [wrapKey]

theorem wrapKey_take_iv {wiv : Bytes} (k M : Bytes) (hiv : wiv.length = IV_LENGTH) :
    (wrapKey k M wiv).take IV_LENGTH = wiv := by
  rw [wrapKey_as_append, List.append_assoc]
  exact List.take_left' hiv

theorem wrapKey_take_tag {wiv : Bytes} (k M : Bytes) (hiv : wiv.length = IV_LENGTH) :
    ((wrapKey k M wiv).drop IV_LENGTH).take TAG_LENGTH =
      gcmTag M wiv (gcmSeal M wiv k) := by
  rw [wrapKey_as_append, List.append_assoc, List.drop_left' hiv]
  exact List.take_left' (gcmTag_length M wiv _)

theorem wrapKey_drop_ct {wiv : Bytes} (k M : Bytes) (hiv : wiv.length = IV_LENGTH) :
    (wrapKey k M wiv).drop (IV_LENGTH + TAG_LENGTH) = gcmSeal M wiv k := by
  rw [wrapKey_as_append]
  apply List.drop_left'
  rw [List.length_append, hiv, gcmTag_length]
  rfl

theorem unwrapKey_wrapKey {wiv : Bytes} (k M : Bytes) (hiv : wiv.length = IV_LENGTH) :
    unwrapKey (wrapKey k M wiv) M = some k := by
  rw [unwrapKey, wrapKey_take_iv k M hiv, wrapKey_take_tag k M hiv,
    wrapKey_drop_ct k M hiv]
  exact gcm_roundtrip M wiv k

theorem unwrapKey_wrong_master {wiv : Bytes} (k M M2 : Bytes)
    (hiv : wiv.length = IV_LENGTH) (hM : ValidBytes M) (hM2 : ValidBytes M2)
    (hne : M2 ≠ M) : unwrapKey (wrapKey k M wiv) M2 = none := by
  rw [unwrapKey, wrapKey_take_iv k M hiv, wrapKey_take_tag k M hiv,
    wrapKey_drop_ct k M hiv]
  exact gcmOpen_wrong_key hM hM2 hne rfl

theorem bytesToStr_strToBytes (s : String) : bytesToStr (strToBytes s) = s := by
  simp only [bytesToStr, strToBytes, List.map_map]
  have h1 : s.data.map (Char.ofNat ∘ Char.toNat) = s.data := by
    have h2 : ∀ c ∈ s.data, (Char.ofNat ∘ Char.toNat) c = id c :=
      fun c _ => Char.ofNat_toNat c
    rw [List.map_congr_left h2, List.map_id]
  rw [h1]

theorem decryptVaultString_encryptVaultString (pw : String) (key iv : Bytes) :
    decryptVaultString (encryptVaultString pw key iv).ciphertext
      (encryptVaultString pw key iv).iv (encryptVaultString pw key iv).tag key = some pw := by
  simp only [decryptVaultString, encryptVaultString, encryptVaultValue, decryptVaultValue]
  rw [gcm_roundtrip key iv (strToBytes pw)]
  simp [bytesToStr_strToBytes]

theorem applyPatch_id (input : VaultEntryPatch) (key ivFresh : Bytes)
    (e : VaultEntryRec) : (applyPatch input key ivFresh e).id = e.id := rfl

theorem getVaultEntry_ok_state (mk : Bytes) (now : Nat) (st : Store) (uid eid : Nat)
    {r : Option VaultEntryResponse} {st' : Store}
    (h : getVaultEntry mk now st uid eid = Except.ok (r, st')) :
    st' = st ∨ st' = { st with entries := touchEntries eid now st.entries } := by
  unfold getVaultEntry at h
  split at h
  · simp only [Except.ok.injEq, Prod.mk.injEq] at h
    exact Or.inl h.2.symm
  · split at h
    · cases h
    · split at h
      · cases h
      · simp only [Except.ok.injEq, Prod.mk.injEq] at h
        exact Or.inr h.2.symm

theorem getVaultEntry_some_state (mk : Bytes) (now : Nat) (st : Store) (uid eid : Nat)
    {r : VaultEntryResponse} {st' : Store}
    (h : getVaultEntry mk now st uid eid = Except.ok (some r, st')) :
    st' = { st with entries := touchEntries eid now st.entries } := by
  unfold getVaultEntry at h
  split at h
  · simp at h
  · split at h
    · cases h
    · split at h
      · cases h
      · simp only [Except.ok.injEq, Prod.mk.injEq] at h
        exact h.2.symm

theorem accessSharedEntry_ok_audits (mk : Bytes) (now : Nat) (st : Store)
    (token : Nat) (ip : Option String) {r : Option SharedEntryView} {st' : Store}
    (h : accessSharedEntry mk now st token ip = Except.ok (r, st')) :
    st'.audits = st.audits := by
  unfold accessSharedEntry at h
  split at h
  · simp only [Except.ok.injEq, Prod.mk.injEq] at h
    rw [← h.2]
  · split at h
    · simp only [Except.ok.injEq, Prod.mk.injEq] at h
      rw [← h.2]
    · split at h
      · cases h
      · next heq =>
        simp only [Except.ok.injEq, Prod.mk.injEq] at h
        rw [← h.2]
        rcases getVaultEntry_ok_state _ _ _ _ _ heq with h1 | h1 <;> rw [h1]
      · next heq =>
        simp only [Except.ok.injEq, Prod.mk.injEq] at h
        rw [← h.2]
        rcases getVaultEntry_ok_state _ _ _ _ _ heq with h1 | h1 <;> rw [h1]

theorem registerUser_ok_audits (mk fk wiv : Bytes) (nid ft re : Nat) (st : Store)
    (email pw : String) (name : Option String) {u : UserResponse} {st' : Store}
    (h : registerUser mk fk wiv nid ft re st email pw name = Except.ok (u, st')) :
    st'.audits = st.audits := by
  unfold registerUser at h
  split at h
  · cases h
  · simp only [Except.ok.injEq, Prod.mk.injEq] at h
    rw [← h.2]
    rfl

theorem loginUser_ok_audits (ft re : Nat) (st : Store) (email pw : String)
    {u : UserResponse} {st' : Store}
    (h : loginUser ft re st email pw = Except.ok (u, st')) :
    st'.audits = st.audits := by
  unfold loginUser at h
  split at h
  · cases h
  · split at h
    · cases h
    · split at h
      · simp only [Except.ok.injEq, Prod.mk.injEq] at h
        rw [← h.2]
        rfl
      · cases h

theorem applyPatch_strength {input : VaultEntryPatch} {pw : String}
    (key ivFresh : Bytes) (e : VaultEntryRec) (hpw : input.password = some pw) :
    (applyPatch input key ivFresh e).strength = some (calculateStrength pw) := by
  simp [applyPatch, hpw]

/-! ## Claim theorems -/

/-- C2: for every plaintext `p` and key `K`, `decryptVaultValue` applied to
the triple produced by `encryptVaultValue(p, K)` with the same `K` returns
`p`; flipping any bit of the ciphertext, nonce or auth tag makes decryption
fail; `unwrapKey(wrapKey(k, M), M) = k`; unwrapping under any `M' ≠ M`
fails; and the wrapped blob has the fixed layout
`nonce(12) ‖ authTag(16) ‖ ciphertext(32)`, 60 bytes total. -/
theorem c2_encrypt_decrypt_roundtrip_tamper_and_wrap_layout :
    (∀ pt key iv, decryptVaultValue (encryptVaultValue pt key iv).ciphertext
        (encryptVaultValue pt key iv).iv (encryptVaultValue pt key iv).tag key = some pt)
    ∧ (∀ pt key iv i b, ValidBytes pt → i < (encryptVaultValue pt key iv).ciphertext.length → b < 8 →
        decryptVaultValue (flipBit (encryptVaultValue pt key iv).ciphertext i b)
          (encryptVaultValue pt key iv).iv (encryptVaultValue pt key iv).tag key = none)
    ∧ (∀ pt key iv i b, ValidBytes iv → i < iv.length → b < 8 →
        decryptVaultValue (encryptVaultValue pt key iv).ciphertext
          (flipBit iv i b) (encryptVaultValue pt key iv).tag key = none)
    ∧ (∀ pt key iv i b, i < (encryptVaultValue pt key iv).tag.length →
        decryptVaultValue (encryptVaultValue pt key iv).ciphertext
          (encryptVaultValue pt key iv).iv (flipBit (encryptVaultValue pt key iv).tag i b) key = none)
    ∧ (∀ k M wiv, wiv.length = IV_LENGTH → unwrapKey (wrapKey k M wiv) M = some k)
    ∧ (∀ k M M2 wiv, wiv.length = IV_LENGTH → ValidBytes M → ValidBytes M2 → M2 ≠ M →
        unwrapKey (wrapKey k M wiv) M2 = none)
    ∧ (∀ k M wiv, wiv.length = IV_LENGTH → k.length = KEY_LENGTH →
        wrapKey k M wiv = wiv ++ gcmTag M wiv (gcmSeal M wiv k) ++ gcmSeal M wiv k
        ∧ (gcmTag M wiv (gcmSeal M wiv k)).length = TAG_LENGTH
        ∧ (gcmSeal M wiv k).length = KEY_LENGTH
        ∧ (wrapKey k M wiv).length = 60) := by
  refine ⟨?_, ?_, ?_, ?_, ?_, ?_, ?_⟩
  · intro pt key iv
    exact gcm_roundtrip key iv pt
  · intro pt key iv i b hpt hi hb
    have hct : ValidBytes (gcmSeal key iv pt) := validBytes_gcmSeal key iv pt hpt
    exact gcmOpen_wrong_ct hct (validBytes_flipBit hct i b hb)
      (flipBit_ne _ i b hi) rfl
  · intro pt key iv i b hiv hi hb
    exact gcmOpen_wrong_iv hiv (validBytes_flipBit hiv i b hb)
      (flipBit_ne _ i b hi) rfl
  · intro pt key iv i b hi
    exact gcmOpen_wrong_tag (flipBit_ne _ i b hi) rfl
  · intro k M wiv hiv
    exact unwrapKey_wrapKey k M hiv
  · intro k M M2 wiv hiv hM hM2 hne
    exact unwrapKey_wrong_master k M M2 hiv hM hM2 hne
  · intro k M wiv hiv hk
    refine ⟨wrapKey_as_append k M wiv, gcmTag_length M wiv _, ?_, ?_⟩
    · rw [gcmSeal_length, hk]
    · rw [wrapKey_as_append]
      simp only [List.length_append, gcmTag_length, gcmSeal_length]
      rw [hiv, hk]
      rfl

/-- Witness for C2 at concrete inputs: plaintext `[1, 2, 3]`, the demo user
key, iv and master key, a flip of bit 0 of byte 0 in each blob, and the
wrong master key `replicate 32 9`. -/
theorem c2_encrypt_decrypt_roundtrip_tamper_and_wrap_layout_witness :
    decryptVaultValue (encryptVaultValue [1, 2, 3] demoUserKey demoIv).ciphertext
        (encryptVaultValue [1, 2, 3] demoUserKey demoIv).iv
        (encryptVaultValue [1, 2, 3] demoUserKey demoIv).tag demoUserKey = some [1, 2, 3]
    ∧ decryptVaultValue (flipBit (encryptVaultValue [1, 2, 3] demoUserKey demoIv).ciphertext 0 0)
        (encryptVaultValue [1, 2, 3] demoUserKey demoIv).iv
        (encryptVaultValue [1, 2, 3] demoUserKey demoIv).tag demoUserKey = none
    ∧ decryptVaultValue (encryptVaultValue [1, 2, 3] demoUserKey demoIv).ciphertext
        (flipBit demoIv 0 0) (encryptVaultValue [1, 2, 3] demoUserKey demoIv).tag demoUserKey = none
    ∧ decryptVaultValue (encryptVaultValue [1, 2, 3] demoUserKey demoIv).ciphertext
        (encryptVaultValue [1, 2, 3] demoUserKey demoIv).iv
        (flipBit (encryptVaultValue [1, 2, 3] demoUserKey demoIv).tag 0 0) demoUserKey = none
    ∧ unwrapKey (wrapKey demoUserKey demoMasterKey demoWrapIv) demoMasterKey = some demoUserKey
    ∧ unwrapKey (wrapKey demoUserKey demoMasterKey demoWrapIv) (List.replicate 32 9) = none
    ∧ (wrapKey demoUserKey demoMasterKey demoWrapIv).length = 60 := by
  refine ⟨c2_encrypt_decrypt_roundtrip_tamper_and_wrap_layout.1 _ _ _,
    c2_encrypt_decrypt_roundtrip_tamper_and_wrap_layout.2.1 _ _ _ 0 0 (by decide) (by decide) (by decide),
    c2_encrypt_decrypt_roundtrip_tamper_and_wrap_layout.2.2.1 _ _ _ 0 0 (by decide) (by decide) (by decide),
    c2_encrypt_decrypt_roundtrip_tamper_and_wrap_layout.2.2.2.1 _ _ _ 0 0 (by decide),
    c2_encrypt_decrypt_roundtrip_tamper_and_wrap_layout.2.2.2.2.1 _ _ _ (by decide),
    c2_encrypt_decrypt_roundtrip_tamper_and_wrap_layout.2.2.2.2.2.1 _ _ _ _ (by decide) (by decide) (by decide) (by decide),
    (c2_encrypt_decrypt_roundtrip_tamper_and_wrap_layout.2.2.2.2.2.2 _ _ _ (by decide) (by decide)).2.2.2⟩

/-- C5: the stored strength is the deterministic score
`min(4, [len ≥ 8] + [len ≥ 12] + [upper and lower] + [digit] +
[non-alphanumeric])` — `calculateStrength` coincides with the spec formula —
and both `create` and every update whose patch carries a new secret store
exactly that score of the new secret. -/
theorem c5_strength_score_recomputed :
    (∀ s, calculateStrength s = strengthScoreSpec s)
    ∧ (∀ mk ivFresh newId nowT st userId input key,
        getUserKeyE mk st userId = Except.ok key →
        ∃ resp e, createVaultEntry mk ivFresh newId nowT st userId input =
            Except.ok (resp, { st with entries := st.entries ++ [e] })
          ∧ e.strength = some (calculateStrength input.password))
    ∧ (∀ mk ivFresh st userId entryId patch pw e0 key,
        patch.password = some pw →
        st.entries.find? (ownerPred userId entryId) = some e0 →
        (∀ x ∈ st.entries, x.id = entryId → x = e0) →
        getUserKeyE mk st userId = Except.ok key →
        ∃ resp st', updateVaultEntry mk ivFresh st userId entryId patch =
            Except.ok (some resp, st')
          ∧ st'.entries.find? (fun x => x.id == entryId) =
              some (applyPatch patch key ivFresh e0)
          ∧ (applyPatch patch key ivFresh e0).strength = some (calculateStrength pw)) := by
  refine ⟨?_, ?_, ?_⟩
  · intro s
    unfold calculateStrength strengthScoreSpec
    rw [Nat.min_comm, Bool.and_comm]
  · intro mk ivFresh newId nowT st userId input key hk
    unfold createVaultEntry
    rw [hk]
    exact ⟨_, _, rfl, rfl⟩
  · intro mk ivFresh st userId entryId patch pw e0 key hpw hfind huniq hk
    have hmem : e0 ∈ st.entries := List.mem_of_find?_eq_some hfind
    have hpe0 : ownerPred userId entryId e0 = true := List.find?_some hfind
    have hide0 : (e0.id == entryId) = true := by
      simp only [ownerPred, Bool.and_eq_true] at hpe0
      exact hpe0.1
    have hfid : st.entries.find? (fun x => x.id == entryId) = some e0 := by
      rw [listFindUnique (fun x => x.id == entryId) st.entries e0 hmem
        (fun x hx hpx => huniq x hx (by simpa using hpx))]
      exact if_pos hide0
    have hmapped : (st.entries.map (fun x =>
          if x.id == entryId then applyPatch patch key ivFresh x else x)).find?
          (fun x => x.id == entryId) = some (applyPatch patch key ivFresh e0) := by
      rw [listFindMapComm _ _ _ (fun x => by
        by_cases hx : (x.id == entryId) = true
        · simp [hx, applyPatch_id]
        · simp only [Bool.not_eq_true] at hx
          simp [hx])]
      rw [hfid]
      exact congrArg some (if_pos hide0)
    have hdec : decryptVaultString (applyPatch patch key ivFresh e0).passwordCiphertext
        (applyPatch patch key ivFresh e0).iv (applyPatch patch key ivFresh e0).tag key
        = some pw := by
      simp only [applyPatch, hpw, Option.map_some]
      exact decryptVaultString_encryptVaultString pw key ivFresh
    refine ⟨formatEntryResponse { st with entries := st.entries.map (fun x =>
        if x.id == entryId then applyPatch patch key ivFresh x else x) }
        (applyPatch patch key ivFresh e0) pw,
      { st with entries := st.entries.map (fun x =>
        if x.id == entryId then applyPatch patch key ivFresh x else x) },
      ?_, hmapped, applyPatch_strength key ivFresh e0 hpw⟩
    simp only [updateVaultEntry, hfind, hk, hmapped, hdec]

/-- Witness for C5: the spec formula agrees on `"Hunter2A!"`; a create and a
password-only update against the demo store store the recomputed score. -/
theorem c5_strength_score_recomputed_witness :
    calculateStrength ("Hunter2A!") = strengthScoreSpec ("Hunter2A!")
    ∧ (∃ resp e, createVaultEntry demoMasterKey demoIv 11 200 demoStore 1
          { title := "T", username := none, password := "aaa", site := none,
            notes := none, tagNames := none, collectionId := none,
            isFavorite := none, isPinned := none } =
          Except.ok (resp, { demoStore with entries := demoStore.entries ++ [e] })
        ∧ e.strength = some (calculateStrength ("aaa")))
    ∧ (∃ resp st', updateVaultEntry demoMasterKey demoWrapIv demoStore 1 10
          demoPasswordPatch = Except.ok (some resp, st')
        ∧ st'.entries.find? (fun x => x.id == 10) =
            some (applyPatch demoPasswordPatch demoUserKey demoWrapIv demoEntry)
        ∧ (applyPatch demoPasswordPatch demoUserKey demoWrapIv demoEntry).strength =
            some (calculateStrength ("Correct-Horse-9!"))) :=
  ⟨c5_strength_score_recomputed.1 ("Hunter2A!"),
   c5_strength_score_recomputed.2.1 demoMasterKey demoIv 11 200 demoStore 1
     { title := "T", username := none, password := "aaa", site := none,
       notes := none, tagNames := none, collectionId := none,
       isFavorite := none, isPinned := none } demoUserKey (by rfl),
   c5_strength_score_recomputed.2.2 demoMasterKey demoWrapIv demoStore 1 10
     demoPasswordPatch ("Correct-Horse-9!") demoEntry demoUserKey (by rfl)
     (by decide) (by decide) (by rfl)⟩

/-- C1 (amended): for every entry V owned by account A, a request
authenticated as any other account B never observes or modifies V —
`getVaultEntry` and `updateVaultEntry` return null, `deleteVaultEntry`
returns false, the toggles throw `'Entry not found'`, and the store is
unchanged in every case; the HTTP layer answers 404 (never 403) for get,
update and delete, while the favorite/pin toggle routes surface the throw
as status 500. -/
theorem c1_cross_account_isolation (st : Store) (e : VaultEntryRec) (A B : Nat)
    (he : e ∈ st.entries) (hown : e.userId = A) (hBA : B ≠ A)
    (huniq : ∀ x ∈ st.entries, x.id = e.id → x = e) :
    (∀ mk now, getVaultEntry mk now st B e.id = Except.ok (none, st))
    ∧ (∀ mk iv patch, updateVaultEntry mk iv st B e.id patch = Except.ok (none, st))
    ∧ toggleFavorite st B e.id = Except.error ("Entry not found")
    ∧ togglePinned st B e.id = Except.error ("Entry not found")
    ∧ deleteVaultEntry st B e.id = (false, st)
    ∧ (∀ mk now ip, getPasswordRoute mk now st B e.id ip = ((404, none), st))
    ∧ (∀ mk iv patch ip, updatePasswordRoute mk iv st B e.id patch ip = ((404, none), st))
    ∧ (∀ mk now ip, deletePasswordRoute mk now st B e.id ip = (404, st))
    ∧ toggleFavoriteRoute st B e.id = ((500, none), st)
    ∧ togglePinnedRoute st B e.id = ((500, none), st) := by
  have hnotp : ∀ x ∈ st.entries, ¬ownerPred B e.id x = true := by
    intro x hx hpx
    simp only [ownerPred, Bool.and_eq_true, beq_iff_eq] at hpx
    have hxe := huniq x hx hpx.1
    subst hxe
    exact hBA (hpx.2.symm.trans hown)
  have hnone : st.entries.find? (ownerPred B e.id) = none :=
    List.find?_eq_none.mpr hnotp
  have hget : ∀ mk now, getVaultEntry mk now st B e.id = Except.ok (none, st) := by
    intro mk now
    simp [getVaultEntry, hnone]
  have hdel : deleteVaultEntry st B e.id = (false, st) := by
    have hfilNil : st.entries.filter (ownerPred B e.id) = [] := by
      rw [List.filter_eq_nil_iff]
      exact hnotp
    have hfilSelf : st.entries.filter (fun x => !ownerPred B e.id x) = st.entries := by
      rw [List.filter_eq_self]
      intro x hx
      simp only [Bool.not_eq_true']
      exact Bool.not_eq_true _ ▸ (Bool.eq_false_iff.mpr (hnotp x hx))
    simp [deleteVaultEntry, hfilNil, hfilSelf]
  refine ⟨hget, ?_, ?_, ?_, hdel, ?_, ?_, ?_, ?_, ?_⟩
  · intro mk iv patch
    simp [updateVaultEntry, hnone]
  · simp [toggleFavorite, hnone]
  · simp [togglePinned, hnone]
  · intro mk now ip
    simp [getPasswordRoute, hget mk now]
  · intro mk iv patch ip
    simp [updatePasswordRoute, updateVaultEntry, hnone]
  · intro mk now ip
    simp [deletePasswordRoute, hget mk now, hdel]
  · simp [toggleFavoriteRoute, toggleFavorite, hnone]
  · simp [togglePinnedRoute, togglePinned, hnone]

/-- Witness for C1: account 2 against entry 10 owned by account 1 in the
demo store. -/
theorem c1_cross_account_isolation_witness :
    getVaultEntry demoMasterKey 7 demoStore 2 demoEntry.id = Except.ok (none, demoStore)
    ∧ toggleFavorite demoStore 2 demoEntry.id = Except.error ("Entry not found")
    ∧ deleteVaultEntry demoStore 2 demoEntry.id = (false, demoStore)
    ∧ getPasswordRoute demoMasterKey 7 demoStore 2 demoEntry.id none = ((404, none), demoStore)
    ∧ toggleFavoriteRoute demoStore 2 demoEntry.id = ((500, none), demoStore) := by
  have h := c1_cross_account_isolation demoStore demoEntry 1 2 (by decide)
    (by decide) (by decide) (by decide)
  exact ⟨h.1 demoMasterKey 7, h.2.2.1, h.2.2.2.2.1, h.2.2.2.2.2.1 demoMasterKey 7 none,
    h.2.2.2.2.2.2.2.2.1⟩

/-- Counterexample for C1 as frozen: the toggle-favorite HTTP handler maps
the cross-account `'Entry not found'` throw to status 500, not 404. -/
theorem c1_counterexample :
    (toggleFavoriteRoute demoStore 2 10).1.1 = 500
    ∧ ¬(toggleFavoriteRoute demoStore 2 10).1.1 = 404 := by
  decide

/-- C9 (amended): when the create input carries a non-empty tag list, the
stored entry's notes field is the input notes with the free-text line
`Tags: name1, name2` appended (the tag string alone when notes are empty),
and `createVaultEntry` writes no `VaultEntryTag` join rows — joins are only
ever created by the separate `addTagsToEntry`, which takes tag ids. -/
theorem c9_create_appends_tags_to_notes (mk ivFresh : Bytes) (newId nowT : Nat)
    (st : Store) (userId : Nat) (input : VaultEntryInput) (key : Bytes)
    (ts : List String) (hk : getUserKeyE mk st userId = Except.ok key)
    (hts : input.tagNames = some ts) (hne : ts.length > 0) :
    ∃ resp e, createVaultEntry mk ivFresh newId nowT st userId input =
        Except.ok (resp, { st with entries := st.entries ++ [e] })
      ∧ e.notes = (match jsOrNull input.notes with
          | some n => some (n ++ "\n\n" ++ ("Tags: " ++ String.intercalate (", ") ts))
          | none => some ("Tags: " ++ String.intercalate (", ") ts))
      ∧ ({ st with entries := st.entries ++ [e] } : Store).entryTags = st.entryTags := by
  unfold createVaultEntry
  rw [hk]
  simp only [hts, if_pos hne]
  exact ⟨_, _, rfl, rfl, trivial⟩

/-- Witness for C9 (amended): the demo tagged input against the demo store. -/
theorem c9_create_appends_tags_to_notes_witness :
    ∃ resp e, createVaultEntry demoMasterKey demoIv 11 200 demoStore 1 demoTaggedInput =
        Except.ok (resp, { demoStore with entries := demoStore.entries ++ [e] })
      ∧ e.notes = (match jsOrNull demoTaggedInput.notes with
          | some n => some (n ++ "\n\n" ++ ("Tags: " ++ String.intercalate (", ") ["work"]))
          | none => some ("Tags: " ++ String.intercalate (", ") ["work"]))
      ∧ ({ demoStore with entries := demoStore.entries ++ [e] } : Store).entryTags = demoStore.entryTags :=
  c9_create_appends_tags_to_notes demoMasterKey demoIv 11 200 demoStore 1
    demoTaggedInput demoUserKey ["work"] (by rfl) (by rfl) (by decide)

/-- Counterexample for C9 as frozen: creating with notes `"hello"` and tag
list `["work"]` stores notes `"hello\n\nTags: work"` — not the input notes —
and creates no `VaultEntryTag` join row. -/
theorem c9_counterexample :
    ((createVaultEntry demoMasterKey demoIv 11 200 demoStore 1 demoTaggedInput).toOption.map
      (fun r => ((r.2.entries.map (fun e => e.notes)).getLast?, r.2.entryTags)))
      = some (some (some ("hello\n\nTags: work")), ([] : List VaultEntryTagRec))
    ∧ demoTaggedInput.notes = some ("hello")
    ∧ some ("hello\n\nTags: work") ≠ some ("hello") := by
  decide

/-- C4 is violated by the code: no code path appends a `share_access` audit
row — the audit table is unchanged by every public share access, successful
or not (here: a successful access of the demo capability returns 200 yet
leaves the audit log empty). -/
theorem c4_share_access_writes_no_audit :
    (∀ mk now st token ip, ((shareAccessRoute mk now st token ip).2).audits = st.audits)
    ∧ (shareAccessRoute demoMasterKey 7 demoStore 777 none).1.1 = 200
    ∧ ((shareAccessRoute demoMasterKey 7 demoStore 777 none).2).audits = demoStore.audits := by
  refine ⟨?_, by rfl, by rfl⟩
  intro mk now st token ip
  unfold shareAccessRoute
  split
  · rfl
  · next heq => exact accessSharedEntry_ok_audits _ _ _ _ _ heq
  · next heq => exact accessSharedEntry_ok_audits _ _ _ _ _ heq

/-- C8 is violated by the code: neither `registerUser`/`loginUser` nor the
register/login HTTP handlers write any audit row — the audit table is
unchanged by every registration and login (here: a successful registration
against the empty store returns 201 and a successful login against the demo
store returns 200, both leaving the audit log as before). -/
theorem c8_register_login_write_no_audit :
    (∀ mk fk wiv nid ft re st email pw name,
        ((registerRoute mk fk wiv nid ft re st email pw name).2).audits = st.audits)
    ∧ (∀ ft re st email pw, ((loginRoute ft re st email pw).2).audits = st.audits)
    ∧ (registerRoute demoMasterKey demoUserKey demoWrapIv 5 888 2000 emptyStore
        ("b@x.test") ("Passw0rd!") none).1.1 = 201
    ∧ ((registerRoute demoMasterKey demoUserKey demoWrapIv 5 888 2000 emptyStore
        ("b@x.test") ("Passw0rd!") none).2).audits = emptyStore.audits
    ∧ (loginRoute 889 2000 demoStore ("a@x.test") ("Passw0rd!")).1.1 = 200
    ∧ ((loginRoute 889 2000 demoStore ("a@x.test") ("Passw0rd!")).2).audits = demoStore.audits := by
  refine ⟨?_, ?_, by rfl, by rfl, by rfl, by rfl⟩
  · intro mk fk wiv nid ft re st email pw name
    unfold registerRoute
    split
    · rfl
    · next heq => exact registerUser_ok_audits _ _ _ _ _ _ _ _ _ _ heq
  · intro ft re st email pw
    unfold loginRoute
    split
    · rfl
    · next heq => exact loginUser_ok_audits _ _ _ _ _ heq

/-- C10: every successful public share access mutates the underlying vault
entry exactly by setting `lastUsedAt` to the access time (through the reused
owner-facing `getVaultEntry`); every other entry field is unchanged, and the
only other mutation is the capability row's consumption bump. -/
theorem c10_share_access_touches_lastUsedAt (mk : Bytes) (now : Nat) (st : Store)
    (token : Nat) (ip : Option String) (l : SharedLinkRec)
    (hfl : st.links.find? (sharePred token now) = some l)
    {v : SharedEntryView} {st' : Store}
    (h : accessSharedEntry mk now st token ip = Except.ok (some v, st')) :
    st' = { st with entries := touchEntries l.entryId now st.entries,
                    links := bumpNLinks l.id now ip 1 st.links } := by
  unfold accessSharedEntry at h
  rw [hfl] at h
  split at h
  · next heq => cases heq
  · next l2 heq =>
    injection heq with heq2
    subst heq2
    split at h
    · simp at h
    · split at h
      · cases h
      · simp at h
      · next heq3 =>
        simp only [Except.ok.injEq, Prod.mk.injEq] at h
        rw [← h.2]
        rw [getVaultEntry_some_state _ _ _ _ _ heq3]

/-- Witness for C10: one access of the demo capability at time 7. -/
theorem c10_share_access_touches_lastUsedAt_witness :
    accessSharedEntry demoMasterKey 7 demoStore 777 none =
      Except.ok (some demoView, demoAfterShare)
    ∧ demoAfterShare =
      { demoStore with entries := touchEntries demoLink.entryId 7 demoStore.entries,
                       links := bumpNLinks demoLink.id 7 none 1 demoStore.links } := by
  have h : accessSharedEntry demoMasterKey 7 demoStore 777 none =
      Except.ok (some demoView, demoAfterShare) := by rfl
  exact ⟨h, c10_share_access_touches_lastUsedAt demoMasterKey 7 demoStore 777 none
    demoLink (by rfl) h⟩

instance : IsTotal VaultEntryListItem ListBeforeR := by
  constructor
  intro a b
  unfold ListBeforeR listBefore
  cases hp : a.isPinned <;> cases hq : b.isPinned <;>
    cases hf : a.isFavorite <;> cases hg : b.isFavorite <;>
      simp <;> omega

instance : IsTrans VaultEntryListItem ListBeforeR := by
  constructor
  intro a b c hab hbc
  unfold ListBeforeR listBefore at hab hbc ⊢
  cases hp : a.isPinned <;> cases hq : b.isPinned <;> cases hr : c.isPinned <;>
    cases hf : a.isFavorite <;> cases hg : b.isFavorite <;> cases hh : c.isFavorite <;>
      simp_all <;> omega

/-- C6 (amended): the list view is sorted pinned-first, then favourites,
then `updatedAt` descending; every element is the secret-free projection of
a matching owned row; and the result is unchanged when every stored secret
triple is erased — the secret is absent from the output.  The source sends
no further ordering key, so ties keep the database's return order (no id
tie-break). -/
theorem c6_list_sorted_and_secret_free (st : Store) (userId : Nat)
    (opts : VaultSearchOptions) :
    List.Sorted ListBeforeR (listVaultEntries st userId opts)
    ∧ (∀ it, it ∈ listVaultEntries st userId opts →
        ∃ e, e ∈ st.entries ∧ e.userId = userId ∧ matchesSearch st userId opts e = true
          ∧ it = toListItem st e)
    ∧ listVaultEntries { st with entries := st.entries.map scrubSecret } userId opts =
        listVaultEntries st userId opts := by
  refine ⟨List.sorted_insertionSort ListBeforeR _, ?_, ?_⟩
  · intro it hit
    unfold listVaultEntries at hit
    rw [List.mem_insertionSort] at hit
    obtain ⟨e, he, rfl⟩ := List.mem_map.mp hit
    rw [List.mem_filter] at he
    have huid : e.userId = userId := by
      have h1 := he.2
      simp only [matchesSearch, Bool.and_eq_true, beq_iff_eq] at h1
      exact h1.1.1.1.1.1.1
    exact ⟨e, he.1, huid, he.2, rfl⟩
  · unfold listVaultEntries
    congr 1
    have h0 : ({ st with entries := st.entries.map scrubSecret } : Store).entries
        = st.entries.map scrubSecret := rfl
    rw [h0, List.filter_map, List.map_map]
    have h1 : st.entries.filter
        ((matchesSearch { st with entries := st.entries.map scrubSecret } userId opts) ∘ scrubSecret)
        = st.entries.filter (matchesSearch st userId opts) :=
      List.filter_congr (fun x _ => rfl)
    rw [h1]
    exact List.map_congr_left (fun x _ => rfl)

/-- Witness for C6: the first element of the tied demo listing is the
projection of a stored row of account 1. -/
theorem c6_list_sorted_and_secret_free_witness :
    List.Sorted ListBeforeR (listVaultEntries tiedStore 1 noFilter)
    ∧ (∃ e, e ∈ tiedStore.entries ∧ e.userId = 1
        ∧ matchesSearch tiedStore 1 noFilter e = true
        ∧ toListItem tiedStore (tiedEntry 2) = toListItem tiedStore e)
    ∧ listVaultEntries { tiedStore with entries := tiedStore.entries.map scrubSecret } 1 noFilter =
        listVaultEntries tiedStore 1 noFilter :=
  ⟨(c6_list_sorted_and_secret_free tiedStore 1 noFilter).1,
   (c6_list_sorted_and_secret_free tiedStore 1 noFilter).2.1
     (toListItem tiedStore (tiedEntry 2)) (by decide),
   (c6_list_sorted_and_secret_free tiedStore 1 noFilter).2.2⟩

/-- Counterexample for C6 as frozen: three fully tied rows inserted in the
order 2, 1, 3 come back in that same order — the code sends no id ordering
key, so ties are not broken by id (neither ascending nor descending). -/
theorem c6_counterexample :
    (listVaultEntries tiedStore 1 noFilter).map (fun it => it.id) = [2, 1, 3]
    ∧ [2, 1, 3] ≠ [1, 2, 3] ∧ [2, 1, 3] ≠ [3, 2, 1] := by
  decide

theorem bumpCount_rep : ∀ (m : List (String × Nat)) (p : String),
    (repCounts (bumpCount m p)).Perm (p :: repCounts m)
  | [], p => by simp [bumpCount, repCounts]
  | (q, c) :: rest, p => by
    by_cases hq : q = p
    · subst hq
      simp only [bumpCount, if_pos rfl, repCounts, List.map_cons, List.flatten_cons,
        List.replicate_succ, List.cons_append]
      exact List.Perm.refl _
    · simp only [bumpCount, if_neg hq, repCounts, List.map_cons, List.flatten_cons]
      exact (List.Perm.append_left (List.replicate c q) (bumpCount_rep rest p)).trans
        List.perm_middle

theorem bumpCount_keys (m : List (String × Nat)) (p : String) :
    keysOf (bumpCount m p) =
      if p ∈ keysOf m then keysOf m else keysOf m ++ [p] := by
  induction m with
  | nil => simp [bumpCount, keysOf]
  | cons pc rest ih =>
    obtain ⟨q, c⟩ := pc
    by_cases hq : q = p
    · subst hq
      simp [bumpCount, keysOf, List.mem_cons]
    · simp only [bumpCount, if_neg hq, keysOf, List.map_cons] at ih ⊢
      rw [ih]
      by_cases hp : p ∈ List.map Prod.fst rest
      · simp [hp, hq]
      · simp [hp, hq, Ne.symm hq]

theorem bumpCount_keys_nodup {m : List (String × Nat)} (h : (keysOf m).Nodup)
    (p : String) : (keysOf (bumpCount m p)).Nodup := by
  rw [bumpCount_keys]
  by_cases hp : p ∈ keysOf m
  · simp [hp, h]
  · simp only [hp, if_false]
    rw [List.nodup_append]
    exact ⟨h, List.nodup_singleton p, by simpa using hp⟩

theorem foldl_bumpCount_rep : ∀ (ps : List String) (m : List (String × Nat)),
    (repCounts (ps.foldl bumpCount m)).Perm (ps ++ repCounts m)
  | [], m => by simp
  | p :: ps, m => by
    simp only [List.foldl_cons, List.cons_append]
    exact ((foldl_bumpCount_rep ps (bumpCount m p)).trans
      (List.Perm.append_left ps (bumpCount_rep m p))).trans List.perm_middle

theorem foldl_bumpCount_nodup : ∀ (ps : List String) {m : List (String × Nat)},
    (keysOf m).Nodup → (keysOf (ps.foldl bumpCount m)).Nodup
  | [], _, h => h
  | p :: ps, m, h => foldl_bumpCount_nodup ps (bumpCount_keys_nodup h p)

theorem repCounts_count_notMem : ∀ {m : List (String × Nat)} {p : String},
    p ∉ keysOf m → (repCounts m).count p = 0
  | [], p, _ => rfl
  | (q, c) :: rest, p, h => by
    simp only [keysOf, List.map_cons, List.mem_cons, not_or] at h
    simp only [repCounts, List.map_cons, List.flatten_cons, List.count_append]
    rw [List.count_replicate]
    have h2 : (repCounts rest).count p = 0 := repCounts_count_notMem (by
      simpa [keysOf] using h.2)
    have hqp : (q == p) = false := beq_eq_false_iff_ne.mpr (Ne.symm h.1)
    simp only [hqp, Bool.false_eq_true, if_false, Nat.zero_add]
    exact h2

theorem repCounts_count : ∀ {m : List (String × Nat)} {p : String} {c : Nat},
    (keysOf m).Nodup → (p, c) ∈ m → (repCounts m).count p = c
  | [], _, _, _, hmem => by cases hmem
  | (q, c') :: rest, p, c, hnd, hmem => by
    simp only [keysOf, List.map_cons, List.nodup_cons] at hnd
    simp only [repCounts, List.map_cons, List.flatten_cons, List.count_append]
    rcases List.mem_cons.mp hmem with h1 | h2
    · obtain ⟨hpq, hcc⟩ : p = q ∧ c = c' :=
        ⟨congrArg Prod.fst h1, congrArg Prod.snd h1⟩
      subst hpq
      subst hcc
      rw [List.count_replicate]
      have hnot : p ∉ keysOf rest := by simpa [keysOf] using hnd.1
      have h0 : (repCounts rest).count p = 0 := repCounts_count_notMem hnot
      simp only [beq_self_eq_true, if_true]
      have h0' : List.count p (List.map (fun pc => List.replicate pc.2 pc.1) rest).flatten = 0 := h0
      omega
    · have hpk : p ∈ keysOf rest := by
        simp only [keysOf, List.mem_map]
        exact ⟨(p, c), h2, rfl⟩
      have hqp : q ≠ p := fun hq => hnd.1 (hq ▸ by simpa [keysOf] using hpk)
      rw [List.count_replicate]
      have hbeq : (q == p) = false := beq_eq_false_iff_ne.mpr hqp
      have hrest : (repCounts rest).count p = c :=
        repCounts_count (by simpa [keysOf] using hnd.2) h2
      have hrest' : List.count p (List.map (fun pc => List.replicate pc.2 pc.1) rest).flatten = c := hrest
      simp only [hbeq, Bool.false_eq_true, if_false]
      omega

theorem repCounts_countP_reused (full : List String) :
    ∀ (m : List (String × Nat)), (∀ pc ∈ m, full.count pc.1 = pc.2) →
    (repCounts m).countP (fun p => decide (2 ≤ full.count p)) = reusedOf m
  | [], _ => rfl
  | (q, c) :: rest, h => by
    simp only [repCounts, List.map_cons, List.flatten_cons, List.countP_append, reusedOf,
      List.map_cons, List.sum_cons]
    have hq : full.count q = c := h (q, c) (List.mem_cons_self _ _)
    have ih : (repCounts rest).countP (fun p => decide (2 ≤ full.count p)) = reusedOf rest :=
      repCounts_countP_reused full rest (fun pc hpc => h pc (List.mem_cons_of_mem _ hpc))
    have ih' : List.countP (fun p => decide (2 ≤ full.count p))
        (List.map (fun pc => List.replicate pc.2 pc.1) rest).flatten =
        (rest.map (fun pc => if pc.2 > 1 then pc.2 else 0)).sum := ih
    rw [List.countP_replicate, ih', hq]
    have hsum : (if decide (2 ≤ c) = true then c else 0) = if c > 1 then c else 0 := by
      by_cases hc : 2 ≤ c
      · rw [if_pos (by simp only [decide_eq_true_eq]; exact hc), if_pos (by omega)]
      · rw [if_neg (by simp only [decide_eq_true_eq]; exact hc), if_neg (by omega)]
    rw [hsum]

theorem healthStep_hashes (key : Bytes) (cutoff : Nat) (acc : HealthAcc)
    (e : VaultEntryRec) :
    (healthStep key cutoff acc e).hashes =
      (match pwOf key e with
       | some pw => bumpCount acc.hashes pw
       | none => acc.hashes) := by
  cases hdec : decryptVaultString e.passwordCiphertext e.iv e.tag key with
  | none =>
    have hp : pwOf key e = none := by unfold pwOf; rw [hdec]
    simp [healthStep, hdec, hp]
  | some pw =>
    by_cases hpw : pw = ""
    · have hp : pwOf key e = none := by unfold pwOf; rw [hdec]; simp [hpw]
      simp [healthStep, hdec, hp, hpw]
    · have hp : pwOf key e = some pw := by unfold pwOf; rw [hdec]; simp [hpw]
      simp only [healthStep, hdec, hp, if_neg hpw]
      split_ifs <;> rfl

theorem healthStep_noPassword (key : Bytes) (cutoff : Nat) (acc : HealthAcc)
    (e : VaultEntryRec) :
    (healthStep key cutoff acc e).noPassword =
      acc.noPassword + (if (pwOf key e).isNone then 1 else 0) := by
  cases hdec : decryptVaultString e.passwordCiphertext e.iv e.tag key with
  | none =>
    have hp : pwOf key e = none := by unfold pwOf; rw [hdec]
    simp [healthStep, hdec, hp]
  | some pw =>
    by_cases hpw : pw = ""
    · have hp : pwOf key e = none := by unfold pwOf; rw [hdec]; simp [hpw]
      simp [healthStep, hdec, hp, hpw]
    · have hp : pwOf key e = some pw := by unfold pwOf; rw [hdec]; simp [hpw]
      simp only [healthStep, hdec, hp, if_neg hpw]
      split_ifs <;> simp_all

theorem foldl_health_hashes (key : Bytes) (cutoff : Nat) :
    ∀ (es : List VaultEntryRec) (acc : HealthAcc),
    (es.foldl (healthStep key cutoff) acc).hashes =
      (es.filterMap (pwOf key)).foldl bumpCount acc.hashes
  | [], _ => rfl
  | e :: es, acc => by
    simp only [List.foldl_cons, List.filterMap_cons]
    cases hpw : pwOf key e with
    | none =>
      rw [foldl_health_hashes key cutoff es (healthStep key cutoff acc e)]
      have h1 := healthStep_hashes key cutoff acc e
      rw [hpw] at h1
      rw [h1]
    | some pw =>
      simp only [List.foldl_cons]
      rw [foldl_health_hashes key cutoff es (healthStep key cutoff acc e)]
      have h1 := healthStep_hashes key cutoff acc e
      rw [hpw] at h1
      rw [h1]

theorem foldl_health_noPassword (key : Bytes) (cutoff : Nat) :
    ∀ (es : List VaultEntryRec) (acc : HealthAcc),
    (es.foldl (healthStep key cutoff) acc).noPassword =
      acc.noPassword + es.countP (fun e => (pwOf key e).isNone)
  | [], _ => by simp
  | e :: es, acc => by
    simp only [List.foldl_cons, List.countP_cons]
    rw [foldl_health_noPassword key cutoff es (healthStep key cutoff acc e),
      healthStep_noPassword key cutoff acc e]
    omega

/-- C7: the health analysis never fails as a whole once the user key
unwraps; `total` is the number of owned rows; `noPassword` counts exactly
the rows whose secret fails to decrypt or decrypts to the empty string; and
`reused` counts one per duplicate occurrence — each owned, decryptable,
non-empty plaintext occurring in at least two such rows contributes 1 (so 3
rows sharing one password give `reused = 3` with `total = 3`). -/
theorem c7_health_reused_per_occurrence (mk : Bytes) (cutoff : Nat) (st : Store)
    (userId : Nat) (key : Bytes) (hk : getUserKeyE mk st userId = Except.ok key) :
    ∃ h, getPasswordHealth mk cutoff st userId = Except.ok h
      ∧ h.total = (st.entries.filter (fun e => e.userId == userId)).length
      ∧ h.noPassword = (st.entries.filter (fun e => e.userId == userId)).countP
          (fun e => (pwOf key e).isNone)
      ∧ h.reused =
          ((st.entries.filter (fun e => e.userId == userId)).filterMap (pwOf key)).countP
            (fun p => decide (2 ≤
              ((st.entries.filter (fun e => e.userId == userId)).filterMap (pwOf key)).count p)) := by
  unfold getPasswordHealth
  rw [hk]
  refine ⟨_, rfl, rfl, ?_, ?_⟩
  · rw [foldl_health_noPassword]
    simp
  · show reusedOf ((st.entries.filter (fun e => e.userId == userId)).foldl
      (healthStep key cutoff)
      { hashes := [], strong := 0, medium := 0, weak := 0, old := 0, noPassword := 0 }).hashes = _
    rw [foldl_health_hashes]
    have hperm : (repCounts (((st.entries.filter (fun e => e.userId == userId)).filterMap
        (pwOf key)).foldl bumpCount [])).Perm
        ((st.entries.filter (fun e => e.userId == userId)).filterMap (pwOf key)) := by
      have h1 := foldl_bumpCount_rep
        ((st.entries.filter (fun e => e.userId == userId)).filterMap (pwOf key)) []
      simpa [repCounts] using h1
    have hnodup : (keysOf (((st.entries.filter (fun e => e.userId == userId)).filterMap
        (pwOf key)).foldl bumpCount [])).Nodup :=
      foldl_bumpCount_nodup _ List.nodup_nil
    have hcounts : ∀ pc ∈ ((st.entries.filter (fun e => e.userId == userId)).filterMap
        (pwOf key)).foldl bumpCount [],
        ((st.entries.filter (fun e => e.userId == userId)).filterMap (pwOf key)).count pc.1 = pc.2 := by
      intro pc hpc
      rw [← hperm.count_eq]
      exact repCounts_count hnodup (by
        obtain ⟨a, b⟩ := pc
        exact hpc)
    rw [← repCounts_countP_reused _ _ hcounts]
    exact hperm.countP_eq _

/-- Witness for C7: three entries of account 1 sharing the password
`"reuse-me"` give `reused = 3`, `total = 3` (and the analysis succeeds). -/
theorem c7_health_reused_per_occurrence_witness :
    (∃ h, getPasswordHealth demoMasterKey 0 reuseStore 1 = Except.ok h
      ∧ h.total = (reuseStore.entries.filter (fun e => e.userId == 1)).length
      ∧ h.noPassword = (reuseStore.entries.filter (fun e => e.userId == 1)).countP
          (fun e => (pwOf demoUserKey e).isNone)
      ∧ h.reused =
          ((reuseStore.entries.filter (fun e => e.userId == 1)).filterMap (pwOf demoUserKey)).countP
            (fun p => decide (2 ≤
              ((reuseStore.entries.filter (fun e => e.userId == 1)).filterMap (pwOf demoUserKey)).count p)))
    ∧ getPasswordHealth demoMasterKey 0 reuseStore 1 = Except.ok
        { total := 3, strong := 0, medium := 0, weak := 3, reused := 3, old := 0, noPassword := 0 } :=
  ⟨c7_health_reused_per_occurrence demoMasterKey 0 reuseStore 1 demoUserKey (by rfl), by rfl⟩

theorem bumpNLinks_comp (lid now : Nat) (ip : Option String) (n : Nat)
    (ls : List SharedLinkRec) :
    bumpNLinks lid now ip 1 (bumpNLinks lid now ip n ls) =
      bumpNLinks lid now ip (n + 1) ls := by
  unfold bumpNLinks bumpedLink
  rw [List.map_map]
  apply List.map_congr_left
  intro x _
  by_cases hx : x.id = lid
  · have hxb : (x.id == lid) = true := beq_iff_eq.mpr hx
    simp [hxb, hx, Nat.add_assoc]
  · have hxb : (x.id == lid) = false := beq_eq_false_iff_ne.mpr hx
    simp [hxb, hx]

theorem touchEntries_idem (eid now : Nat) (es : List VaultEntryRec) :
    touchEntries eid now (touchEntries eid now es) = touchEntries eid now es := by
  unfold touchEntries touchedEntry
  rw [List.map_map]
  apply List.map_congr_left
  intro x _
  by_cases hx : x.id = eid
  · have hxb : (x.id == eid) = true := beq_iff_eq.mpr hx
    simp [hxb, hx]
  · have hxb : (x.id == eid) = false := beq_eq_false_iff_ne.mpr hx
    simp [hxb, hx]

theorem sharePred_bumpNLinks (token now lid tnow : Nat) (ip : Option String)
    (n : Nat) (x : SharedLinkRec) :
    sharePred token now (if (x.id == lid) = true then bumpedLink tnow ip n x else x) =
      sharePred token now x := by
  by_cases hx : x.id = lid
  · have hxb : (x.id == lid) = true := beq_iff_eq.mpr hx
    simp [hxb, sharePred, bumpedLink]
  · have hxb : (x.id == lid) = false := beq_eq_false_iff_ne.mpr hx
    simp [hxb]

theorem ownerPred_touch (uid eid tid now : Nat) (x : VaultEntryRec) :
    ownerPred uid eid (if (x.id == tid) = true then touchedEntry now x else x) =
      ownerPred uid eid x := by
  by_cases hx : x.id = tid
  · have hxb : (x.id == tid) = true := beq_iff_eq.mpr hx
    simp [hxb, ownerPred, touchedEntry]
  · have hxb : (x.id == tid) = false := beq_eq_false_iff_ne.mpr hx
    simp [hxb]

theorem idPred_bumpNLinks (lid lid2 tnow : Nat) (ip : Option String) (n : Nat)
    (x : SharedLinkRec) :
    ((if (x.id == lid) = true then bumpedLink tnow ip n x else x).id == lid2) =
      (x.id == lid2) := by
  by_cases hx : x.id = lid
  · have hxb : (x.id == lid) = true := beq_iff_eq.mpr hx
    simp [hxb, hx, bumpedLink]
  · have hxb : (x.id == lid) = false := beq_eq_false_iff_ne.mpr hx
    simp [hxb]

theorem find_sharePred_bumpNLinks (token now lid tnow : Nat) (ip : Option String)
    (n : Nat) (ls : List SharedLinkRec) :
    (bumpNLinks lid tnow ip n ls).find? (sharePred token now) =
      (ls.find? (sharePred token now)).map (fun x =>
        if (x.id == lid) = true then bumpedLink tnow ip n x else x) := by
  unfold bumpNLinks
  exact listFindMapComm _ _ ls (fun x => sharePred_bumpNLinks token now lid tnow ip n x)

theorem find_ownerPred_touch (uid eid tid now : Nat) (es : List VaultEntryRec) :
    (touchEntries tid now es).find? (ownerPred uid eid) =
      (es.find? (ownerPred uid eid)).map (fun x =>
        if (x.id == tid) = true then touchedEntry now x else x) := by
  unfold touchEntries
  exact listFindMapComm _ _ es (fun x => ownerPred_touch uid eid tid now x)

theorem find_idPred_bumpNLinks (lid lid2 tnow : Nat) (ip : Option String) (n : Nat)
    (ls : List SharedLinkRec) :
    (bumpNLinks lid tnow ip n ls).find? (fun x => x.id == lid2) =
      (ls.find? (fun x => x.id == lid2)).map (fun x =>
        if (x.id == lid) = true then bumpedLink tnow ip n x else x) := by
  unfold bumpNLinks
  exact listFindMapComm _ _ ls (fun x => idPred_bumpNLinks lid lid2 tnow ip n x)

theorem access_step_success (mk key : Bytes) (now token : Nat) (ip : Option String)
    (st : Store) (l : SharedLinkRec) (e : VaultEntryRec) (pw : String)
    (hfl : st.links.find? (sharePred token now) = some l)
    (hvc : l.viewCount < l.maxViews)
    (he : st.entries.find? (ownerPred l.userId l.entryId) = some e)
    (hk : getUserKeyE mk st l.userId = Except.ok key)
    (hdec : decryptVaultString e.passwordCiphertext e.iv e.tag key = some pw) :
    accessSharedEntry mk now st token ip = Except.ok
      (some { title := e.title, username := e.username, site := e.site,
              password := if l.includePassword then some pw else none,
              notes := if l.includeNotes then jsOrNull e.notes else none },
       { st with entries := touchEntries l.entryId now st.entries,
                 links := bumpNLinks l.id now ip 1 st.links }) := by
  have hget : getVaultEntry mk now st l.userId l.entryId =
      Except.ok (some (formatEntryResponse st e pw),
        { st with entries := touchEntries l.entryId now st.entries }) := by
    simp only [getVaultEntry, he, hk, hdec]
  simp only [accessSharedEntry, hfl]
  rw [if_neg (by omega : ¬l.viewCount ≥ l.maxViews)]
  rw [hget]
  rfl

theorem access_step_exhausted (mk : Bytes) (now token : Nat) (ip : Option String)
    (st : Store) (l : SharedLinkRec)
    (hfl : st.links.find? (sharePred token now) = some l)
    (hvc : l.viewCount ≥ l.maxViews) :
    accessSharedEntry mk now st token ip = Except.ok (none, st) := by
  simp only [accessSharedEntry, hfl]
  rw [if_pos hvc]

theorem access_no_link (mk : Bytes) (now token : Nat) (ip : Option String)
    (st : Store) (hfl : st.links.find? (sharePred token now) = none) :
    accessSharedEntry mk now st token ip = Except.ok (none, st) := by
  simp only [accessSharedEntry, hfl]

theorem accessIter_shape (mk key : Bytes) (now token : Nat) (ip : Option String)
    (st : Store) (l : SharedLinkRec) (e : VaultEntryRec) (pw : String)
    (hfl : st.links.find? (sharePred token now) = some l)
    (he : st.entries.find? (ownerPred l.userId l.entryId) = some e)
    (hk : getUserKeyE mk st l.userId = Except.ok key)
    (hdec : decryptVaultString e.passwordCiphertext e.iv e.tag key = some pw)
    (h0 : l.viewCount = 0) (hmax : 1 ≤ l.maxViews) :
    ∀ k, accessIter mk now ip token k st = shareStateAfter l now ip k st := by
  have heid : (e.id == l.entryId) = true := by
    have hp := List.find?_some he
    simp only [ownerPred, Bool.and_eq_true] at hp
    exact hp.1
  have hstep : ∀ j, (match accessSharedEntry mk now (shareStateAfter l now ip j st) token ip with
      | Except.ok r => r.2
      | Except.error _ => shareStateAfter l now ip j st) =
      shareStateAfter l now ip (j + 1) st := by
    intro j
    by_cases hj : j = 0
    · subst hj
      have hsa0 : shareStateAfter l now ip 0 st = st := if_pos rfl
      rw [hsa0]
      have hsucc := access_step_success mk key now token ip st l e pw hfl
        (by omega) he hk hdec
      simp only [hsucc]
      unfold shareStateAfter
      rw [if_neg (by omega : ¬(0 + 1 = 0))]
      have hmin : min (0 + 1) l.maxViews = 1 := by omega
      rw [hmin]
    · have hn1 : 1 ≤ min j l.maxViews := by omega
      have hsaj : shareStateAfter l now ip j st =
          { st with entries := touchEntries l.entryId now st.entries,
                    links := bumpNLinks l.id now ip (min j l.maxViews) st.links } := by
        unfold shareStateAfter
        rw [if_neg hj]
      have hfl_j : (shareStateAfter l now ip j st).links.find? (sharePred token now) =
          some (bumpedLink now ip (min j l.maxViews) l) := by
        rw [hsaj]
        show (bumpNLinks l.id now ip (min j l.maxViews) st.links).find? (sharePred token now) = _
        rw [find_sharePred_bumpNLinks, hfl]
        exact congrArg some (if_pos (beq_self_eq_true l.id))
      have he_j : (shareStateAfter l now ip j st).entries.find?
          (ownerPred l.userId l.entryId) = some (touchedEntry now e) := by
        rw [hsaj]
        show (touchEntries l.entryId now st.entries).find? (ownerPred l.userId l.entryId) = _
        rw [find_ownerPred_touch, he]
        exact congrArg some (if_pos heid)
      have hk_j : getUserKeyE mk (shareStateAfter l now ip j st) l.userId = Except.ok key := by
        rw [hsaj]
        exact hk
      by_cases hlt : min j l.maxViews < l.maxViews
      · have hsucc := access_step_success mk key now token ip
          (shareStateAfter l now ip j st)
          (bumpedLink now ip (min j l.maxViews) l)
          (touchedEntry now e) pw hfl_j
          (by show l.viewCount + min j l.maxViews < l.maxViews; omega)
          he_j hk_j hdec
        simp only [hsucc]
        rw [hsaj]
        show ({ st with
          entries := touchEntries l.entryId now (touchEntries l.entryId now st.entries),
          links := bumpNLinks l.id now ip 1 (bumpNLinks l.id now ip (min j l.maxViews) st.links) } : Store) = _
        rw [touchEntries_idem, bumpNLinks_comp]
        unfold shareStateAfter
        rw [if_neg (by omega : ¬(j + 1 = 0))]
        have hmin : min j l.maxViews + 1 = min (j + 1) l.maxViews := by omega
        rw [hmin]
      · have hexh := access_step_exhausted mk now token ip
          (shareStateAfter l now ip j st)
          (bumpedLink now ip (min j l.maxViews) l) hfl_j
          (by show l.viewCount + min j l.maxViews ≥ l.maxViews; omega)
        simp only [hexh]
        rw [hsaj]
        unfold shareStateAfter
        rw [if_neg (by omega : ¬(j + 1 = 0))]
        have hmin : min j l.maxViews = min (j + 1) l.maxViews := by omega
        rw [hmin]
  have hiter : ∀ k j, accessIter mk now ip token k (shareStateAfter l now ip j st) =
      shareStateAfter l now ip (j + k) st := by
    intro k
    induction k with
    | zero => intro j; rfl
    | succ k ih =>
      intro j
      rw [accessIter]
      simp only [hstep j]
      rw [ih (j + 1)]
      congr 1
      omega
  intro k
  have h00 : st = shareStateAfter l now ip 0 st := (if_pos rfl).symm
  calc accessIter mk now ip token k st
      = accessIter mk now ip token k (shareStateAfter l now ip 0 st) := by rw [← h00]
    _ = shareStateAfter l now ip (0 + k) st := hiter k 0
    _ = shareStateAfter l now ip k st := by rw [Nat.zero_add]

/-- C3: under a well-formed store (capability present with a matching
fingerprint, unique ids and fingerprints, its entry present, owner key
unwrappable, secret decryptable), an access via `accessSharedEntry` succeeds
iff `now < expiresAt` and `viewCount < maxViews`; each success increments
`viewCount` by exactly one; starting from `viewCount = 0`, after N
sequential accesses `viewCount = min N maxViews`; and the `(maxViews + 1)`th
access answers with the same NotFound response (404) as a token that matches
no capability. -/
theorem c3_share_views_expiry_enforced (mk key : Bytes) (now token : Nat)
    (ip : Option String) (st : Store) (l : SharedLinkRec) (e : VaultEntryRec)
    (pw : String)
    (hmem : l ∈ st.links)
    (htok : l.tokenHash = hashToken token)
    (htokuniq : ∀ x ∈ st.links, x.tokenHash = hashToken token → x = l)
    (hiduniq : ∀ x ∈ st.links, x.id = l.id → x = l)
    (he : st.entries.find? (ownerPred l.userId l.entryId) = some e)
    (hk : getUserKeyE mk st l.userId = Except.ok key)
    (hdec : decryptVaultString e.passwordCiphertext e.iv e.tag key = some pw) :
    ((∃ v st', accessSharedEntry mk now st token ip = Except.ok (some v, st')) ↔
      (now < l.expiresAt ∧ l.viewCount < l.maxViews))
    ∧ (∀ v st', accessSharedEntry mk now st token ip = Except.ok (some v, st') →
        linkViewCount st' l.id = some (l.viewCount + 1))
    ∧ (l.viewCount = 0 → now < l.expiresAt → 1 ≤ l.maxViews →
        (∀ N, linkViewCount (accessIter mk now ip token N st) l.id =
          some (min N l.maxViews))
        ∧ (shareAccessRoute mk now (accessIter mk now ip token l.maxViews st) token ip).1 =
          (404, none))
    ∧ (∀ t2, (∀ x ∈ st.links, x.tokenHash ≠ hashToken t2) →
        (shareAccessRoute mk now st t2 ip).1 = (404, none)) := by
  have hfind_iff : st.links.find? (sharePred token now) =
      if sharePred token now l then some l else none :=
    listFindUnique _ _ l hmem (fun x hx hpx => htokuniq x hx (by
      simp only [sharePred, Bool.and_eq_true, beq_iff_eq] at hpx
      exact hpx.1))
  have hfid : st.links.find? (fun x => x.id == l.id) = some l := by
    rw [listFindUnique _ _ l hmem (fun x hx hpx => hiduniq x hx (by simpa using hpx))]
    exact if_pos (beq_self_eq_true l.id)
  have hflOf : now < l.expiresAt → st.links.find? (sharePred token now) = some l := by
    intro hexp
    rw [hfind_iff, if_pos]
    simp [sharePred, htok, hexp]
  have hIff : (∃ v st', accessSharedEntry mk now st token ip = Except.ok (some v, st')) ↔
      (now < l.expiresAt ∧ l.viewCount < l.maxViews) := by
    constructor
    · rintro ⟨v, st', hsucc⟩
      by_cases hexp : now < l.expiresAt
      · by_cases hvc : l.viewCount < l.maxViews
        · exact ⟨hexp, hvc⟩
        · have hexh := access_step_exhausted mk now token ip st l (hflOf hexp) (by omega)
          rw [hexh] at hsucc
          simp at hsucc
      · have hflnone : st.links.find? (sharePred token now) = none := by
          rw [hfind_iff, if_neg]
          simp [sharePred, hexp]
        have hnl := access_no_link mk now token ip st hflnone
        rw [hnl] at hsucc
        simp at hsucc
    · rintro ⟨hexp, hvc⟩
      exact ⟨_, _, access_step_success mk key now token ip st l e pw (hflOf hexp) hvc he hk hdec⟩
  refine ⟨hIff, ?_, ?_, ?_⟩
  · intro v st' hsucc
    obtain ⟨hexp, hvc⟩ := hIff.mp ⟨v, st', hsucc⟩
    have hsucc2 := access_step_success mk key now token ip st l e pw (hflOf hexp) hvc he hk hdec
    rw [hsucc2] at hsucc
    simp only [Except.ok.injEq, Prod.mk.injEq] at hsucc
    rw [← hsucc.2]
    unfold linkViewCount
    have hfind2 : (bumpNLinks l.id now ip 1 st.links).find? (fun x => x.id == l.id) =
        some (bumpedLink now ip 1 l) := by
      rw [find_idPred_bumpNLinks, hfid]
      exact congrArg some (if_pos (beq_self_eq_true l.id))
    rw [show ({ st with entries := touchEntries l.entryId now st.entries, links := bumpNLinks l.id now ip 1 st.links } : Store).links = bumpNLinks l.id now ip 1 st.links from rfl]
    rw [hfind2]
    rfl
  · intro h0 hexp hmax
    have hshape := accessIter_shape mk key now token ip st l e pw (hflOf hexp) he hk hdec h0 hmax
    constructor
    · intro N
      rw [hshape N]
      by_cases hN : N = 0
      · subst hN
        unfold shareStateAfter
        rw [if_pos rfl]
        unfold linkViewCount
        rw [hfid]
        exact congrArg some (by show l.viewCount = min 0 l.maxViews; omega)
      · unfold shareStateAfter
        rw [if_neg hN]
        unfold linkViewCount
        have hfind2 : (bumpNLinks l.id now ip (min N l.maxViews) st.links).find?
            (fun x => x.id == l.id) = some (bumpedLink now ip (min N l.maxViews) l) := by
          rw [find_idPred_bumpNLinks, hfid]
          exact congrArg some (if_pos (beq_self_eq_true l.id))
        rw [show ({ st with entries := touchEntries l.entryId now st.entries, links := bumpNLinks l.id now ip (min N l.maxViews) st.links } : Store).links = bumpNLinks l.id now ip (min N l.maxViews) st.links from rfl]
        rw [hfind2]
        exact congrArg some (by show l.viewCount + min N l.maxViews = min N l.maxViews; omega)
    · rw [hshape l.maxViews]
      have hsaM : shareStateAfter l now ip l.maxViews st =
          { st with entries := touchEntries l.entryId now st.entries,
                    links := bumpNLinks l.id now ip (min l.maxViews l.maxViews) st.links } := by
        unfold shareStateAfter
        rw [if_neg (by omega)]
      have hflM : (shareStateAfter l now ip l.maxViews st).links.find? (sharePred token now) =
          some (bumpedLink now ip (min l.maxViews l.maxViews) l) := by
        rw [hsaM]
        show (bumpNLinks l.id now ip (min l.maxViews l.maxViews) st.links).find? (sharePred token now) = _
        rw [find_sharePred_bumpNLinks, hflOf hexp]
        exact congrArg some (if_pos (beq_self_eq_true l.id))
      have hexh := access_step_exhausted mk now token ip
        (shareStateAfter l now ip l.maxViews st)
        (bumpedLink now ip (min l.maxViews l.maxViews) l) hflM
        (by show l.viewCount + min l.maxViews l.maxViews ≥ l.maxViews; omega)
      simp only [shareAccessRoute, hexh]
  · intro t2 ht2
    have hflnone : st.links.find? (sharePred t2 now) = none := by
      rw [List.find?_eq_none]
      intro x hx hpx
      simp only [sharePred, Bool.and_eq_true, beq_iff_eq] at hpx
      exact ht2 x hx hpx.1
    have hnl := access_no_link mk now t2 ip st hflnone
    simp only [shareAccessRoute, hnl]

/-- Witness for C3: the demo capability (maxViews 2, viewCount 0, expiry
1000) accessed with token 777 at time 7. -/
theorem c3_share_views_expiry_enforced_witness :
    ((∃ v st', accessSharedEntry demoMasterKey 7 demoStore 777 none =
        Except.ok (some v, st')) ↔
      (7 < demoLink.expiresAt ∧ demoLink.viewCount < demoLink.maxViews))
    ∧ (∀ v st', accessSharedEntry demoMasterKey 7 demoStore 777 none =
          Except.ok (some v, st') →
        linkViewCount st' demoLink.id = some (demoLink.viewCount + 1))
    ∧ (demoLink.viewCount = 0 → 7 < demoLink.expiresAt → 1 ≤ demoLink.maxViews →
        (∀ N, linkViewCount (accessIter demoMasterKey 7 none 777 N demoStore) demoLink.id =
          some (min N demoLink.maxViews))
        ∧ (shareAccessRoute demoMasterKey 7
            (accessIter demoMasterKey 7 none 777 demoLink.maxViews demoStore) 777 none).1 =
          (404, none))
    ∧ (∀ t2, (∀ x ∈ demoStore.links, x.tokenHash ≠ hashToken t2) →
        (shareAccessRoute demoMasterKey 7 demoStore t2 none).1 = (404, none)) :=
  c3_share_views_expiry_enforced demoMasterKey demoUserKey 7 777 none demoStore
    demoLink demoEntry ("Hunter2A!") (by decide) (by decide) (by decide)
    (by decide) (by rfl) (by rfl) (by rfl)

end SecurePass
